import Mathlib

/-!
# svn2git: the Extract / Transform / Load pipeline

A shallow embedding of `internal/etl/etl.go` and `cmd/svn_to_git/main.go`.

* The file system, the clock, `go-git` and the network are explicit inputs:
  a directory tree (`Node`) for the source, and records of outcomes
  (`StageEnv`, `LoadEnv`) for every call that can fail.
* Go `error` values are the inductive `GoError`; a `nil` error is `none`.
* `int64` arithmetic is `Int` arithmetic followed by `int64`, which wraps.
* Paths are Unix paths: the separator is `/`, so `filepath.ToSlash` and
  `filepath.FromSlash` are the identity. When files are read and written, a
  file is identified by its cleaned path: no two cleaned paths (through a
  link, or one absolute and one relative) name the same file.
-/

namespace Svn2Git

/-! ## Go library -/

/-- Go `error` values. The three sentinels are the ones the program compares
against; `wrap ctx e` is `fmt.Errorf(ctx + ": %w", e)`. -/
inductive GoError where
  | skipDir
  | errRemoteExists
  | noErrAlreadyUpToDate
  | other (msg : String)
  | wrap (ctx : String) (inner : GoError)
deriving DecidableEq, Repr

/-- Go `errors.Is(err, target)`: `target` is found somewhere on the `%w` chain. -/
def errorsIs : GoError → GoError → Bool
  | .wrap ctx inner, target => decide (GoError.wrap ctx inner = target) || errorsIs inner target
  | e, target => decide (e = target)

/-- Conversion to `int64`: two's complement wrap-around. -/
def int64 (x : Int) : Int := (x + 2 ^ 63) % 2 ^ 64 - 2 ^ 63

/-- Go `unicode.SimpleFold` on the fold orbits that contain an ASCII rune:
`A`..`Z` and `a`..`z` pair up, except that `k` continues to U+212A (Kelvin
sign) and `s` to U+017F (long s), which fold back to `K` and `S`. Every other
rune is left alone, which is exact for ASCII and not modelled beyond it. -/
def simpleFold (r : Char) : Char :=
  if r = 'k' then Char.ofNat 0x212A
  else if r = Char.ofNat 0x212A then 'K'
  else if r = 's' then Char.ofNat 0x017F
  else if r = Char.ofNat 0x017F then 'S'
  else if 'A' ≤ r ∧ r ≤ 'Z' then Char.ofNat (r.toNat + 32)
  else if 'a' ≤ r ∧ r ≤ 'z' then Char.ofNat (r.toNat - 32)
  else r

/-- The loop `for r != sr && r < tr { r = unicode.SimpleFold(r) }` of
`strings.EqualFold`; four rounds exhaust every orbit of `simpleFold`. -/
def foldLoop : Nat → Char → Char → Char → Char
  | 0, _, _, r => r
  | n + 1, sr, tr, r => if r ≠ sr ∧ r < tr then foldLoop n sr tr (simpleFold r) else r

/-- One round of the rune loop of `strings.EqualFold`: are the two runes equal
under simple case folding. -/
def runeEqualFold (s t : Char) : Bool :=
  if t = s then true
  else
    let sr := if t < s then t else s
    let tr := if t < s then s else t
    if tr.toNat < 0x80 then
      decide ('A' ≤ sr ∧ sr ≤ 'Z' ∧ tr.toNat = sr.toNat + 32)
    else
      decide (foldLoop 4 sr tr (simpleFold sr) = tr)

/-- The rune loop of `strings.EqualFold` with its final length test. -/
def equalFoldRunes : List Char → List Char → Bool
  | [], [] => true
  | s :: ss, t :: ts => runeEqualFold s t && equalFoldRunes ss ts
  | _, _ => false

/-- Go `strings.EqualFold`, on strings that are valid UTF-8. -/
def EqualFold (s t : String) : Bool := equalFoldRunes s.toList t.toList

/-- The names of a relative path, joined with `/`. -/
def joinSlash : List String → String
  | [] => ""
  | [a] => a
  | a :: b :: rest => a ++ "/" ++ joinSlash (b :: rest)

/-- The elements of a path: the runs between its separators. -/
def splitSlash : List Char → List (List Char)
  | [] => [[]]
  | c :: cs =>
    match splitSlash cs with
    | [] => [[c]]
    | x :: xs => if c = '/' then [] :: x :: xs else (c :: x) :: xs

/-- The element rules of Go `filepath.Clean`: empty elements and `.` are
dropped, `..` removes the element before it, stays at the start of a relative
path and is dropped at the start of a rooted one. `out` holds the elements kept
so far, last first. -/
def cleanElems (rooted : Bool) : List String → List String → List String
  | [], out => out.reverse
  | e :: rest, out =>
    if e = "" ∨ e = "." then cleanElems rooted rest out
    else if e = ".." then
      match out with
      | [] => if rooted then cleanElems rooted rest [] else cleanElems rooted rest [".."]
      | top :: below =>
        if top = ".." then cleanElems rooted rest (".." :: top :: below)
        else cleanElems rooted rest below
    else cleanElems rooted rest (e :: out)

/-- Go `filepath.Clean` on Unix. -/
def Clean (path : String) : String :=
  let rooted := path.toList.head? = some '/'
  let elems := cleanElems rooted ((splitSlash path.toList).map String.mk) []
  if rooted then "/" ++ joinSlash elems
  else if elems = [] then "." else joinSlash elems

/-- Go `filepath.Join(path, name)`: the arguments from the first non-empty one
on, joined with `/` and cleaned. -/
def Join (path name : String) : String :=
  if path = "" then (if name = "" then "" else Clean name) else Clean (path ++ "/" ++ name)

/-- Go `filepath.Dir`: the path up to its last separator, cleaned. -/
def Dir (path : String) : String :=
  Clean (String.mk (path.toList.reverse.dropWhile (fun c => c ≠ '/')).reverse)

/-- The loop of `os.basename` that removes trailing slashes, on the reversed
name; the first byte of the name is kept. -/
def dropSlashes : List Char → List Char
  | '/' :: c :: rest => dropSlashes (c :: rest)
  | l => l

/-- Go `os.basename`, the `Name()` that `os.Stat` and `os.Lstat` report for a
path: trailing slashes removed, then what follows the last remaining slash. -/
def basename (name : String) : String :=
  match dropSlashes name.toList.reverse with
  | [] => ""
  | c :: rest => String.mk (c :: rest.takeWhile (fun x => x ≠ '/')).reverse

/-- The value of `filepath.ToSlash(rel)` for `rel, _ := filepath.Rel(sourceRoot, path)`,
where `path` is `sourceRoot` followed by the names `names`: the root itself is
`.`, anything below it is its names joined with `/`. -/
def relSlash (names : List String) : String :=
  if names = [] then "." else joinSlash names

/-! ## Data model (`etl.go`) -/

/-- A broken-down `time.Time`: calendar fields in the time's own zone and the
zone offset in seconds east of UTC. -/
structure Time where
  year : Int
  month : Nat
  day : Nat
  hour : Nat
  minute : Nat
  second : Nat
  offset : Int
deriving DecidableEq, Repr

/-- The struct `SnapshotFile`: relative path, path to copy the bytes from, size. -/
structure SnapshotFile where
  RelPath : String
  SrcPath : String
  Size : Int
deriving DecidableEq, Repr

/-- The struct `Snapshot`: a file tree export without SVN metadata. -/
structure Snapshot where
  RootPath : String
  Files : List SnapshotFile
deriving DecidableEq, Repr

/-- The struct `Manifest`: derived information for auditing the run. -/
structure Manifest where
  CreatedAt : Time
  SourceRoot : String
  FileCount : Int
  TotalBytes : Int
deriving DecidableEq, Repr

/-! ## The source tree and `filepath.WalkDir` -/

/-- What kind of non-directory entry a name refers to. `WalkDir` does not
follow symbolic links: a link is an entry of its own, never a directory. -/
inductive Kind where
  | regular
  | symlink
  | irregular
deriving DecidableEq, Repr

/-- A directory entry as `os.Lstat` and `os.ReadDir` report it.
`entry name kind size infoErr`: a non-directory; `infoErr` is the error of
`d.Info()`, `size` the `Size()` it returns otherwise.
`dir name children readErr`: a directory; `children` are the entries
`os.ReadDir` returns (sorted by name) and `readErr` the error it returns. -/
inductive Node where
  | entry (name : String) (kind : Kind) (size : Nat) (infoErr : Option GoError)
  | dir (name : String) (children : List Node) (readErr : Option GoError)
deriving Repr

/-- Go `d.Name()`. -/
def Node.Name : Node → String
  | .entry name _ _ _ => name
  | .dir name _ _ => name

/-- Go `d.IsDir()`. -/
def Node.IsDir : Node → Bool
  | .entry _ _ _ _ => false
  | .dir _ _ _ => true

/-- Go `d.Info()`, reduced to the size it reports. -/
def Node.Info : Node → Except GoError Nat
  | .entry _ _ size none => .ok size
  | .entry _ _ _ (some e) => .error e
  | .dir _ _ _ => .ok 0

/-- A `fs.WalkDirFunc` closure over captured variables of type `σ`:
`fn path names d err s` is the new value of the captured variables and the
returned error; `d = none` is a nil `fs.DirEntry`. `names` are the names that
lead from the walk's root to `path`; the callback uses them where the Go code
calls `filepath.Rel`. -/
abbrev WalkDirFunc (σ : Type) :=
  String → List String → Option Node → Option GoError → σ → σ × Option GoError

mutual
/-- Go `filepath.walkDir`. -/
def walkDir {σ : Type} (fn : WalkDirFunc σ) (path : String) (names : List String) :
    Node → σ → σ × Option GoError
  | .entry name kind size infoErr, s => fn path names (some (.entry name kind size infoErr)) none s
  | .dir name children readErr, s =>
    match fn path names (some (.dir name children readErr)) none s with
    | (s1, some err) => (s1, if err = .skipDir then none else some err)
    | (s1, none) =>
      match readErr with
      | some e =>
        match fn path names (some (.dir name children readErr)) (some e) s1 with
        | (s2, some err) => (s2, if err = .skipDir then none else some err)
        | (s2, none) => walkEntries fn path names children s2
      | none => walkEntries fn path names children s1
/-- The loop `for _, d1 := range dirs` of `filepath.walkDir`. -/
def walkEntries {σ : Type} (fn : WalkDirFunc σ) (path : String) (names : List String) :
    List Node → σ → σ × Option GoError
  | [], s => (s, none)
  | d1 :: rest, s =>
    match walkDir fn (Join path d1.Name) (names ++ [d1.Name]) d1 s with
    | (s1, some err) => (s1, if err = .skipDir then none else some err)
    | (s1, none) => walkEntries fn path names rest s1
end

/-- Go `filepath.WalkDir(root, fn)`; `lstat` is the outcome of `os.Lstat(root)`,
which does not follow a symbolic link. -/
def WalkDir {σ : Type} (fn : WalkDirFunc σ) (root : String) (lstat : Except GoError Node) (s : σ) :
    σ × Option GoError :=
  match (match lstat with
    | .error err => fn root [] none (some err) s
    | .ok info => walkDir fn root [] info s) with
  | (s1, some err) => (s1, if err = .skipDir then none else some err)
  | (s1, none) => (s1, none)

/-! ## Extract -/

/-- The variables `files` and `total` captured by the walk callback. -/
structure WalkState where
  files : List SnapshotFile
  total : Int
deriving DecidableEq, Repr

/-- The closure `walkFn` of `ExtractSnapshotFromWorkingCopy`. `WalkDir` passes
a nil entry only together with an error; using a nil entry would panic. -/
def walkFn : WalkDirFunc WalkState := fun path names d err s =>
  match err with
  | some e => (s, some e)
  | none =>
    match d with
    | none => (s, some (.other "nil pointer dereference"))
    | some d =>
      if d.IsDir then
        if EqualFold d.Name ".svn" then (s, some .skipDir) else (s, none)
      else
        match d.Info with
        | .error e => (s, some e)
        | .ok size =>
          (⟨s.files ++ [⟨relSlash names, path, size⟩], int64 (s.total + size)⟩, none)

/-- The function `ExtractSnapshotFromWorkingCopy`. `stat` is the outcome of
`os.Stat(sourceRoot)`, which follows a symbolic link, and `lstat` that of the
`os.Lstat(sourceRoot)` inside `filepath.WalkDir`, which does not: for a root
that is a link to a directory, `stat` is the directory and `lstat` the link.
Both report `basename sourceRoot` as the name. `now` is `time.Now()`. -/
def ExtractSnapshotFromWorkingCopy (now : Time) (sourceRoot : String)
    (stat lstat : Except GoError Node) : Except GoError (Snapshot × Manifest) :=
  match stat with
  | .error err => .error (.wrap "stat source" err)
  | .ok info =>
    if !info.IsDir then
      .error (.other ("source must be a directory: " ++ sourceRoot))
    else
      match WalkDir walkFn sourceRoot lstat ⟨[], 0⟩ with
      | (_, some err) => .error (.wrap "walk source" err)
      | (s, none) =>
        .ok (⟨sourceRoot, s.files⟩, ⟨now, sourceRoot, (s.files.length : Int), s.total⟩)

/-! ## Manifest text -/

/-- Decimal digits of `n`, padded with zeros on the left to `width` digits. -/
def zeroPad (width n : Nat) : String :=
  String.mk (List.replicate (width - (toString n).length) '0') ++ toString n

/-- Go `time.appendInt`: sign, then the digits padded with zeros to `width`. -/
def appendInt (x : Int) (width : Nat) : String :=
  if x < 0 then "-" ++ zeroPad width x.natAbs else zeroPad width x.natAbs

/-- The zone of layout `Z07:00`: `Z` for offset zero, otherwise the sign and
`hh:mm` of the offset truncated to minutes (Go integer division truncates
towards zero, so an offset in (-60, 0) prints `+00:00`). -/
def formatZone (offset : Int) : String :=
  if offset = 0 then "Z"
  else
    let zone := offset.natAbs / 60
    (if offset < 0 ∧ zone ≠ 0 then "-" else "+") ++ zeroPad 2 (zone / 60) ++ ":" ++ zeroPad 2 (zone % 60)

/-- Go `t.Format(time.RFC3339)`, layout `2006-01-02T15:04:05Z07:00`. -/
def formatRFC3339 (t : Time) : String :=
  appendInt t.year 4 ++ "-" ++ zeroPad 2 t.month ++ "-" ++ zeroPad 2 t.day ++ "T" ++
    zeroPad 2 t.hour ++ ":" ++ zeroPad 2 t.minute ++ ":" ++ zeroPad 2 t.second ++ formatZone t.offset

/-- An operand of `fmt.Fprintf`. -/
inductive Arg where
  | str (s : String)
  | int (i : Int)

/-- Go `fmt` formatting for the verbs the program uses: `%s` with a string
operand and `%d` with an integer operand; every other rune is copied. -/
def formatVerbs : List Char → List Arg → String
  | [], _ => ""
  | '%' :: 's' :: rest, .str s :: args => s ++ formatVerbs rest args
  | '%' :: 'd' :: rest, .int i :: args => toString i ++ formatVerbs rest args
  | c :: rest, args => String.singleton c ++ formatVerbs rest args

/-- Go `fmt.Fprintf(b, format, args...)` on a `strings.Builder` holding `b`. -/
def Fprintf (b : String) (format : String) (args : List Arg) : String :=
  b ++ formatVerbs format.toList args

/-- The function `buildManifestText`. -/
def buildManifestText (m : Manifest) : String :=
  let b := ""
  let b := Fprintf b "SVN -> GIT IMPORT MANIFEST\n" []
  let b := Fprintf b "Created: %s\n" [.str (formatRFC3339 m.CreatedAt)]
  let b := Fprintf b "SourceRoot: %s\n" [.str m.SourceRoot]
  let b := Fprintf b "FileCount: %d\n" [.int m.FileCount]
  let b := Fprintf b "TotalBytes: %d\n" [.int m.TotalBytes]
  b

/-! ## Transform -/

/-- File contents. -/
abbrev Bytes := List UInt8

/-- Go `object.Signature`. -/
structure Signature where
  Name : String
  Email : String
  When : Time
deriving DecidableEq, Repr

/-- A commit object: message, identities and the tree it records (the
registered paths with their contents). -/
structure Commit where
  Message : String
  Author : Signature
  Committer : Signature
  Tree : List (String × Bytes)
deriving DecidableEq, Repr

/-- The staged repository on disk: the files the run has written, by cleaned
path (they are the working tree), the index (paths registered for the next
commit, with the contents registered), the commits, and the configured
remotes. -/
structure Repository where
  files : List (String × Bytes)
  index : List (String × Bytes)
  commits : List Commit
  remotes : List (String × List String)
deriving DecidableEq, Repr

/-- A directory in which nothing has been staged yet. -/
def Repository.empty : Repository := ⟨[], [], [], []⟩

/-- The struct `TransformOptions`. -/
structure TransformOptions where
  WorkDir : String
  Author : String
  Email : String
  Message : String
  Manifest : Option Manifest
deriving DecidableEq, Repr

/-- Outcomes of the calls `TransformToGitRepo` makes into the operating system
and `go-git`; `none` is a `nil` error. `source` holds the files that exist
before the run, by cleaned path; `openErr` is an error of `os.Open` other than
a missing file. The files that `go-git` keeps under `.git` are not part of the
model. -/
structure StageEnv where
  now : Time
  mkdirTemp : Except GoError String
  mkdirAll : String → Option GoError
  plainInit : String → Option GoError
  worktree : Option GoError
  source : String → Option Bytes
  openErr : String → Option GoError
  create : String → Option GoError
  copy : String → String → Option (Nat × GoError)
  sync : String → Option GoError
  writeFile : String → Option GoError
  add : String → Option GoError
  commit : Option GoError

/-- Writing `data` to the file `path`, which is created or replaced. -/
def writeAt (files : List (String × Bytes)) (path : String) (data : Bytes) : List (String × Bytes) :=
  files.filter (fun e => e.1 ≠ path) ++ [(path, data)]

/-- The bytes of the file `path` as the run finds them: what the run has
written there, else what was there before the run. -/
def readFile (env : StageEnv) (files : List (String × Bytes)) (path : String) :
    Except GoError Bytes :=
  match env.openErr path with
  | some err => .error err
  | none =>
    match files.lookup (Clean path) with
    | some data => .ok data
    | none =>
      match env.source (Clean path) with
      | some data => .ok data
      | none => .error (.other "no such file or directory")

/-- The function `copyFileContents(src, dst)`: open the source, create the
destination, which truncates it, copy what the open source then holds, sync.
When `dst` is the source file itself, the source is empty by the time it is
read. `copy src dst = some (n, e)` is an `io.Copy` that fails with `e` after
`n` bytes. -/
def copyFileContents (env : StageEnv) (src dst : String) (repo : Repository) :
    Repository × Option GoError :=
  match readFile env repo.files src with
  | .error err => (repo, some err)
  | .ok _ =>
    match env.create dst with
    | some err => (repo, some err)
    | none =>
      match readFile env (writeAt repo.files (Clean dst) []) src with
      | .error err => ({ repo with files := writeAt repo.files (Clean dst) [] }, some err)
      | .ok data =>
        match env.copy src dst with
        | some (n, err) =>
          ({ repo with files := writeAt repo.files (Clean dst) (data.take n) }, some err)
        | none => ({ repo with files := writeAt repo.files (Clean dst) data }, env.sync dst)

/-- Go-git `wt.Add(path)`: the file `path` of the working tree rooted at
`repoPath` is registered in the index with its current contents. -/
def Add (env : StageEnv) (repoPath : String) (repo : Repository) (path : String) :
    Repository × Option GoError :=
  match env.add path with
  | some err => (repo, some err)
  | none =>
    match repo.files.lookup (Clean (Join repoPath path)) with
    | none => (repo, some (.other "entry not found"))
    | some data => ({ repo with index := writeAt repo.index path data }, none)

/-- The loop `for _, f := range snapshot.Files` of `TransformToGitRepo`. -/
def stageFiles (env : StageEnv) (repoPath : String) :
    List SnapshotFile → Repository → Repository × Option GoError
  | [], repo => (repo, none)
  | f :: rest, repo =>
    let destPath := Join repoPath f.RelPath
    match env.mkdirAll (Dir destPath) with
    | some err => (repo, some (.wrap ("mkdir " ++ Dir destPath) err))
    | none =>
      match copyFileContents env f.SrcPath destPath repo with
      | (repo1, some err) => (repo1, some (.wrap ("copy " ++ f.RelPath) err))
      | (repo1, none) =>
        match Add env repoPath repo1 f.RelPath with
        | (repo2, some err) => (repo2, some (.wrap ("git add " ++ f.RelPath) err))
        | (repo2, none) => stageFiles env repoPath rest repo2

/-- The manifest step of `TransformToGitRepo`. -/
def stageManifest (env : StageEnv) (repoPath : String) (m : Option Manifest) (repo : Repository) :
    Repository × Option GoError :=
  match m with
  | none => (repo, none)
  | some m =>
    let manifestPath := Join repoPath "SVN_IMPORT_MANIFEST.txt"
    let content := buildManifestText m
    match env.writeFile manifestPath with
    | some err => (repo, some (.wrap "write manifest" err))
    | none =>
      match Add env repoPath
          { repo with files := writeAt repo.files (Clean manifestPath) content.toUTF8.data.toList }
          "SVN_IMPORT_MANIFEST.txt" with
      | (repo1, some err) => (repo1, some (.wrap "git add manifest" err))
      | (repo1, none) => (repo1, none)

/-- Go-git `wt.Commit(msg, &git.CommitOptions{Author: sig, Committer: sig})`:
one commit whose tree is the index. -/
def commitIndex (env : StageEnv) (msg : String) (author committer : Signature) (repo : Repository) :
    Repository × Option GoError :=
  match env.commit with
  | some err => (repo, some err)
  | none => ({ repo with commits := repo.commits ++ [⟨msg, author, committer, repo.index⟩] }, none)

/-- The function `TransformToGitRepo`. The first component is what the call returns (the
repository path, or the error); the second is the staged repository on disk
when the call returns, to which the returned handle refers. -/
def TransformToGitRepo (env : StageEnv) (snapshot : Snapshot) (opts : TransformOptions) :
    Except GoError String × Repository :=
  let workdir : Except GoError String :=
    if opts.WorkDir = "" then
      match env.mkdirTemp with
      | .error err => .error (.wrap "create temp dir" err)
      | .ok dir => .ok dir
    else
      match env.mkdirAll opts.WorkDir with
      | some err => .error (.wrap "ensure workdir" err)
      | none => .ok opts.WorkDir
  match workdir with
  | .error err => (.error err, Repository.empty)
  | .ok workdir =>
    let repoPath := Join workdir "repo"
    match env.mkdirAll repoPath with
    | some err => (.error (.wrap "create repo dir" err), Repository.empty)
    | none =>
      match env.plainInit repoPath with
      | some err => (.error (.wrap "init repo" err), Repository.empty)
      | none =>
        match env.worktree with
        | some err => (.error (.wrap "get worktree" err), Repository.empty)
        | none =>
          match stageFiles env repoPath snapshot.Files Repository.empty with
          | (repo1, some err) => (.error err, repo1)
          | (repo1, none) =>
            match stageManifest env repoPath opts.Manifest repo1 with
            | (repo2, some err) => (.error err, repo2)
            | (repo2, none) =>
              let commitMsg := if opts.Message = "" then "SVN import" else opts.Message
              let sig : Signature := ⟨opts.Author, opts.Email, env.now⟩
              match commitIndex env commitMsg sig sig repo2 with
              | (repo3, some err) => (.error (.wrap "commit" err), repo3)
              | (repo3, none) => (.ok repoPath, repo3)

/-! ## Load -/

/-- Go-git `http.BasicAuth`. -/
structure BasicAuth where
  Username : String
  Password : String
deriving DecidableEq, Repr

/-- Go-git `git.PushOptions`, the fields the program sets; `Auth = none` is a
nil `transport.AuthMethod`. -/
structure PushOptions where
  RemoteName : String
  Auth : Option BasicAuth
deriving DecidableEq, Repr

/-- Go `tls.Config`, the field the program sets. -/
structure TLSConfig where
  InsecureSkipVerify : Bool
deriving DecidableEq, Repr

/-- Outcomes of the calls `LoadPushToRemote` makes: `createRemote` is an error
of `repo.CreateRemote` for a remote name that is still free, `push` the error
of `repo.Push` given the options and the TLS configuration of the client that
`go-git` then uses. -/
structure LoadEnv where
  createRemote : String → List String → Option GoError
  push : PushOptions → Option TLSConfig → Option GoError

/-- Go-git `repo.CreateRemote`: a name in use is `ErrRemoteExists`. -/
def CreateRemote (env : LoadEnv) (repo : Repository) (name : String) (urls : List String) :
    Repository × Option GoError :=
  if repo.remotes.any (fun r => r.1 = name) then (repo, some .errRemoteExists)
  else
    match env.createRemote name urls with
    | some err => (repo, some err)
    | none => ({ repo with remotes := repo.remotes ++ [(name, urls)] }, none)

/-- What a call of `LoadPushToRemote` leaves behind: the returned error, the
repository, and the push attempts it made, each with the TLS configuration of
the client in use. -/
structure LoadResult where
  err : Option GoError
  repo : Option Repository
  pushes : List (PushOptions × Option TLSConfig)
deriving DecidableEq, Repr

/-- The function `LoadPushToRemote`. A nil `repo` is `none`. -/
def LoadPushToRemote (env : LoadEnv) (repo : Option Repository) (remoteURL username password : String)
    (tlsConfig : Option TLSConfig) : LoadResult :=
  match repo with
  | none => ⟨some (.other "repo is nil"), none, []⟩
  | some repo =>
    if remoteURL = "" then ⟨some (.other "remoteURL is empty"), some repo, []⟩
    else
      match CreateRemote env repo "origin" [remoteURL] with
      | (repo1, err) =>
        match err.filter (fun e => !errorsIs e .errRemoteExists) with
        | some e => ⟨some (.wrap "create remote" e), some repo1, []⟩
        | none =>
          let auth : Option BasicAuth :=
            if username ≠ "" ∨ password ≠ "" then some ⟨username, password⟩ else none
          let pushErr := env.push ⟨"origin", auth⟩ tlsConfig
          if pushErr = some .noErrAlreadyUpToDate then
            ⟨none, some repo1, [(⟨"origin", auth⟩, tlsConfig)]⟩
          else
            match pushErr with
            | some e => ⟨some (.wrap "push" e), some repo1, [(⟨"origin", auth⟩, tlsConfig)]⟩
            | none => ⟨none, some repo1, [(⟨"origin", auth⟩, tlsConfig)]⟩

/-! ## The command (`main.go`) -/

/-- The struct `cliArgs`, as `parseArgs` returns them. -/
structure cliArgs where
  sourcePath : String
  targetURL : String
  username : String
  password : String
  authorName : String
  authorEmail : String
  commitMessage : String
  workdir : String
  debug : Bool
  dryRun : Bool
  insecureTLS : Bool
deriving DecidableEq, Repr

/-- Everything outside the process that a run consults. -/
structure World where
  now : Time
  stat : String → Except GoError Node
  lstat : String → Except GoError Node
  stage : StageEnv
  net : LoadEnv

/-- The pipeline stages. -/
inductive Stage where
  | extract
  | transform
  | load
deriving DecidableEq, Repr

/-- What a run of `main` leaves behind: the exit status of the process, the
stages it invoked in order, the options it passed to Transform, the staged
repository, and the push attempts made. -/
structure Run where
  exit : Nat
  stages : List Stage
  opts : Option TransformOptions
  repo : Option Repository
  pushes : List (PushOptions × Option TLSConfig)
deriving DecidableEq, Repr

/-- The function `main`. `os.Exit(2)` after the usage text, status 1 from `log.Fatal`,
status 0 when `main` returns. -/
def main (args : cliArgs) (w : World) : Run :=
  if args.sourcePath = "" ∨ args.targetURL = "" then ⟨2, [], none, none, []⟩
  else
    let args := if args.authorName = "" then { args with authorName := args.username } else args
    match ExtractSnapshotFromWorkingCopy w.now args.sourcePath (w.stat args.sourcePath)
        (w.lstat args.sourcePath) with
    | .error _ => ⟨1, [.extract], none, none, []⟩
    | .ok (snapshot, manifest) =>
      let opts : TransformOptions :=
        ⟨args.workdir, args.authorName, args.authorEmail, args.commitMessage, some manifest⟩
      match TransformToGitRepo w.stage snapshot opts with
      | (.error _, repo) => ⟨1, [.extract, .transform], some opts, some repo, []⟩
      | (.ok _, repo) =>
        if args.dryRun then ⟨0, [.extract, .transform], some opts, some repo, []⟩
        else
          let tlsConfig : Option TLSConfig := if args.insecureTLS then some ⟨true⟩ else none
          let r := LoadPushToRemote w.net (some repo) args.targetURL args.username args.password tlsConfig
          match r.err with
          | some _ => ⟨1, [.extract, .transform, .load], some opts, r.repo, r.pushes⟩
          | none => ⟨0, [.extract, .transform, .load], some opts, r.repo, r.pushes⟩

/-! ## Measures and conditions on a source tree -/

mutual
/-- Every non-directory entry of the tree, with its kind and size. -/
def Node.entries : Node → List (Kind × Nat)
  | .entry _ kind size _ => [(kind, size)]
  | .dir _ children _ => entriesOf children
/-- The non-directory entries of a list of trees. -/
def entriesOf : List Node → List (Kind × Nat)
  | [] => []
  | d :: rest => d.entries ++ entriesOf rest
end

/-- The number of regular files in the tree. -/
def Node.regularCount (d : Node) : Nat := (d.entries.filter (fun e => e.1 = .regular)).length

/-- The bytes of the regular files in the tree. -/
def Node.regularBytes (d : Node) : Nat := ((d.entries.filter (fun e => e.1 = .regular)).map Prod.snd).sum

/-- The number of non-directory entries in the tree, regular or not. -/
def Node.entryCount (d : Node) : Nat := d.entries.length

/-- The bytes of all non-directory entries in the tree. -/
def Node.entryBytes (d : Node) : Nat := (d.entries.map Prod.snd).sum

mutual
/-- No non-directory entry lies inside a directory named like `.svn`. -/
def Node.metadataFree : Node → Bool
  | .entry _ _ _ _ => true
  | .dir name children _ =>
    if EqualFold name ".svn" then (entriesOf children).isEmpty else metadataFreeAll children
/-- The condition `Node.metadataFree` for every tree of a list. -/
def metadataFreeAll : List Node → Bool
  | [] => true
  | d :: rest => d.metadataFree && metadataFreeAll rest
end

mutual
/-- The traversal meets no I/O error: every directory it enters can be read
and `Info()` succeeds on every entry it records. -/
def Node.readable : Node → Bool
  | .entry _ _ _ infoErr => infoErr.isNone
  | .dir name children readErr =>
    EqualFold name ".svn" || (readErr.isNone && readableAll children)
/-- The condition `Node.readable` for every tree of a list. -/
def readableAll : List Node → Bool
  | [] => true
  | d :: rest => d.readable && readableAll rest
end

mutual
/-- The paths, as lists of names relative to `d`, of everything below `d`. -/
def Node.paths : Node → List (List String)
  | .entry _ _ _ _ => []
  | .dir _ children _ => pathsOf children
/-- The paths of the trees of a list and of everything below them. -/
def pathsOf : List Node → List (List String)
  | [] => []
  | d :: rest => ([d.Name] :: d.paths.map (fun p => d.Name :: p)) ++ pathsOf rest
end

mutual
/-- The paths, relative to `d`, of everything that lies below a directory
named like `.svn`, `d` itself included among those directories. -/
def Node.hidden : Node → List (List String)
  | .entry _ _ _ _ => []
  | .dir name children _ =>
    if EqualFold name ".svn" then pathsOf children else hiddenAll children
/-- The paths `Node.hidden` below each tree of a list, relative to their parent. -/
def hiddenAll : List Node → List (List String)
  | [] => []
  | d :: rest => d.hidden.map (fun p => d.Name :: p) ++ hiddenAll rest
end

/-- No name below `d` contains the path separator. -/
def Node.wellNamed (d : Node) : Prop := ∀ p ∈ d.paths, ∀ x ∈ p, '/' ∉ x.toList

/-! ## Notions used in the statements -/

/-- The authentication method a push carries for the given credentials. -/
def authFor (username password : String) : Option BasicAuth :=
  if username ≠ "" ∨ password ≠ "" then some ⟨username, password⟩ else none

/-- The error `LoadPushToRemote` returns for an error of `repo.Push`. -/
def pushVerdict : Option GoError → Option GoError
  | none => none
  | some e => if e = .noErrAlreadyUpToDate then none else some (.wrap "push" e)

/-- A snapshot file recorded for the path `q`, none of whose directories is
named like `.svn`. -/
def RecordedAt (f : SnapshotFile) (q : List String) : Prop :=
  f.RelPath = joinSlash q ∧ ∀ x ∈ q.dropLast, EqualFold x ".svn" = false

/-- The files of a snapshot were staged into `index`: the registered paths are
those of `old` and the relative paths of `fs`, and what is registered under a
path is what `old` held or belongs to a file of `fs` with that relative path. -/
def Staged (fs : List SnapshotFile) (old index : List (String × Bytes)) : Prop :=
  (∀ p, p ∈ index.map Prod.fst ↔ p ∈ old.map Prod.fst ∨ p ∈ fs.map SnapshotFile.RelPath) ∧
  ∀ e ∈ index, e ∈ old ∨ ∃ f ∈ fs, f.RelPath = e.1

/-- A clean relative path that stays below the directory it is joined to, as
Extract produces it for every entry below the source root. -/
def plainRelPath (p : String) : Bool :=
  decide (Clean p = p) && decide (p ≠ ".") && decide (p ≠ "..") &&
    !("/".toList.isPrefixOf p.toList) && !("../".toList.isPrefixOf p.toList)

/-- The path lies inside the directory `dir`. -/
def insideDir (dir path : String) : Bool := (dir ++ "/").toList.isPrefixOf path.toList

/-- The sources of the snapshot are apart from the repository at `repoPath`:
none lies inside the repository directory, where the run and `go-git` write,
and none is a destination of the snapshot, so that no file is copied onto
itself or onto a source that is still to be copied. -/
def SourcesApart (repoPath : String) (fs : List SnapshotFile) : Prop :=
  ∀ f ∈ fs, insideDir (Clean repoPath) (Clean f.SrcPath) = false ∧
    ∀ g ∈ fs, Clean f.SrcPath ≠ Clean (Join repoPath g.RelPath)

/-- A decimal digit, the last one of `n`. -/
def digit (n : Nat) : Char := Char.ofNat (48 + n % 10)

/-- The last two decimal digits of `n` (`2DIGIT` of RFC 3339). -/
def twoDigits (n : Nat) : String := String.mk [digit (n / 10), digit n]

/-- The last four decimal digits of `n` (`4DIGIT` of RFC 3339). -/
def fourDigits (n : Nat) : String :=
  String.mk [digit (n / 1000), digit (n / 100), digit (n / 10), digit n]

/-- A time that RFC 3339 can express: a year of four digits, calendar fields
in their ranges, an offset of whole minutes of less than a day. -/
def Time.expressible (t : Time) : Prop :=
  0 ≤ t.year ∧ t.year < 10000 ∧ t.month ≤ 12 ∧ t.day ≤ 31 ∧ t.hour ≤ 23 ∧ t.minute ≤ 59 ∧
    t.second ≤ 59 ∧ t.offset % 60 = 0 ∧ t.offset.natAbs < 86400

/-- The `date-time` of RFC 3339, section 5.6, without fraction:
`4DIGIT "-" 2DIGIT "-" 2DIGIT "T" 2DIGIT ":" 2DIGIT ":" 2DIGIT` followed by
`Z` for UTC or by the sign, `2DIGIT ":" 2DIGIT` of the offset. -/
def rfc3339 (t : Time) : String :=
  fourDigits t.year.toNat ++ "-" ++ twoDigits t.month ++ "-" ++ twoDigits t.day ++ "T" ++
    twoDigits t.hour ++ ":" ++ twoDigits t.minute ++ ":" ++ twoDigits t.second ++
    (if t.offset = 0 then "Z"
     else (if t.offset < 0 then "-" else "+") ++ twoDigits (t.offset.natAbs / 3600) ++ ":" ++
       twoDigits (t.offset.natAbs / 60 % 60))

/-- The directory `TransformToGitRepo` works in: the given one, or the fresh
temporary directory. -/
def WorkDirIs (env : StageEnv) (opts : TransformOptions) (workdir : String) : Prop :=
  if opts.WorkDir = "" then env.mkdirTemp = .ok workdir else workdir = opts.WorkDir

/-- What a call of `TransformToGitRepo` that returns `r` has done: it failed
without creating a commit, or it staged the files and the manifest in
`workdir` and created exactly one commit from the index. -/
def TransformOutcome (env : StageEnv) (snapshot : Snapshot) (opts : TransformOptions)
    (r : Except GoError String × Repository) : Prop :=
  (∃ e, r.1 = .error e ∧ r.2.commits = []) ∨
  (∃ workdir repo1 repo2, WorkDirIs env opts workdir ∧
    r.1 = .ok (Join workdir "repo") ∧
    stageFiles env (Join workdir "repo") snapshot.Files Repository.empty = (repo1, none) ∧
    stageManifest env (Join workdir "repo") opts.Manifest repo1 = (repo2, none) ∧
    repo2.remotes = [] ∧
    r.2 = { repo2 with commits := [⟨if opts.Message = "" then "SVN import" else opts.Message,
        ⟨opts.Author, opts.Email, env.now⟩, ⟨opts.Author, opts.Email, env.now⟩, repo2.index⟩] })

/-! ## Sample inputs -/

/-- A point in time, one hour east of UTC. -/
def sampleTime : Time := ⟨2024, 3, 5, 7, 8, 9, 3600⟩

/-- A working copy with an administrative directory `.SVN` that holds files. -/
def sampleTree : Node :=
  .dir "wc" [
    .entry "a.txt" .regular 3 none,
    .dir ".SVN" [.entry "entries" .regular 9 none, .dir "pristine" [.entry "0a.svn-base" .regular 3 none] none] none,
    .dir "sub" [.entry "b.txt" .regular 5 none] none] none

/-- A working copy whose administrative directory holds no files. -/
def cleanTree : Node :=
  .dir "wc" [
    .entry "a.txt" .regular 3 none,
    .dir ".svn" [.dir "tmp" [] none] none,
    .dir "sub" [.entry "b.txt" .regular 5 none] none] none

/-- A working copy with one regular file of 3 bytes and a symbolic link whose
target is 7 bytes long. -/
def linkTree : Node :=
  .dir "wc" [.entry "a.txt" .regular 3 none, .entry "link" .symlink 7 none] none

/-- The directory `/wc/.Svn` as `os.Lstat("/wc/.Svn/.")` reports it: under the
name `.`, the last element of the path as spelled. -/
def dottedRoot : Node := .dir "." [.entry "entries" .regular 9 none] none

/-- The snapshot of `sampleTree` rooted at `/wc`. -/
def sampleSnapshot : Snapshot :=
  ⟨"/wc", [⟨"a.txt", "/wc/a.txt", 3⟩, ⟨"sub/b.txt", "/wc/sub/b.txt", 5⟩]⟩

/-- The manifest of `sampleTree` rooted at `/wc`. -/
def sampleManifest : Manifest := ⟨sampleTime, "/wc", 2, 8⟩

/-- An environment in which every call succeeds and `/wc` holds `a.txt` with
the bytes 1, 2, 3 and `sub/b.txt` with the bytes 4, 5, 6, 7, 8. -/
def sampleEnv : StageEnv where
  now := sampleTime
  mkdirTemp := .ok "/tmp/svn2git-1"
  mkdirAll := fun _ => none
  plainInit := fun _ => none
  worktree := none
  source := fun p =>
    if p = "/wc/a.txt" then some [1, 2, 3]
    else if p = "/wc/sub/b.txt" then some [4, 5, 6, 7, 8] else none
  openErr := fun _ => none
  create := fun _ => none
  copy := fun _ _ => none
  sync := fun _ => none
  writeFile := fun _ => none
  add := fun _ => none
  commit := none

/-- As `sampleEnv`, but `/wc/sub/b.txt` cannot be opened. -/
def brokenEnv : StageEnv :=
  { sampleEnv with
    openErr := fun p => if p = "/wc/sub/b.txt" then some (.other "permission denied") else none }

/-- Options as `main` builds them for `sampleManifest`. -/
def sampleOptions : TransformOptions := ⟨"", "bob", "", "Import from SVN snapshot", some sampleManifest⟩

/-- Options of a direct call that names no author. -/
def blankOptions : TransformOptions := ⟨"", "", "", "Import from SVN snapshot", some sampleManifest⟩

/-- An environment in which the directory `/tmp/vs/repo` holds `a.txt` with the
bytes 1, 2, 3 and every call succeeds. -/
def selfEnv : StageEnv :=
  { sampleEnv with source := fun p => if p = "/tmp/vs/repo/a.txt" then some [1, 2, 3] else none }

/-- The snapshot of the source directory `/tmp/vs/repo`. -/
def selfSnapshot : Snapshot := ⟨"/tmp/vs/repo", [⟨"a.txt", "/tmp/vs/repo/a.txt", 3⟩]⟩

/-- Options with the work directory `/tmp/vs`, whose `repo` is the source. -/
def selfOptions : TransformOptions :=
  ⟨"/tmp/vs", "bob", "", "Import from SVN snapshot", some ⟨sampleTime, "/tmp/vs/repo", 1, 3⟩⟩

/-- A remote that is already up to date. -/
def currentRemote : LoadEnv := ⟨fun _ _ => none, fun _ _ => some .noErrAlreadyUpToDate⟩

/-- A remote that accepts the push. -/
def freshRemote : LoadEnv := ⟨fun _ _ => none, fun _ _ => none⟩

/-- A repository that already has a remote named `origin`. -/
def attachedRepo : Repository := ⟨[], [], [], [("origin", ["https://old.example/r.git"])]⟩

/-- Arguments of a dry run without an author name. -/
def sampleArgs : cliArgs :=
  ⟨"/wc", "https://git.example/r.git", "bob", "secret", "", "", "Import from SVN snapshot", "",
    false, true, false⟩

/-- A world in which `/wc` is `sampleTree` and every call succeeds. -/
def sampleWorld : World :=
  ⟨sampleTime, fun _ => .ok sampleTree, fun _ => .ok sampleTree, sampleEnv, freshRemote⟩

/-! ## Arithmetic and the walk -/

theorem int64_of_range (x : Int) (h0 : 0 ≤ x) (h1 : x < 2 ^ 63) : int64 x = x := by
  unfold int64
  have h2 : (2:Int) ^ 63 = 9223372036854775808 := by norm_num
  have h3 : (2:Int) ^ 64 = 18446744073709551616 := by norm_num
  rw [h2, h3] at *
  omega

mutual
theorem walkDir_count (d : Node) (path : String) (names : List String) (s : WalkState)
    (hr : d.readable = true) (hm : d.metadataFree = true)
    (h0 : 0 ≤ s.total) (hb : s.total + d.entryBytes < 2 ^ 63) :
    (walkDir walkFn path names d s).2 = none ∧
    (walkDir walkFn path names d s).1.files.length = s.files.length + d.entryCount ∧
    (walkDir walkFn path names d s).1.total = s.total + d.entryBytes := by
  match d with
  | .entry name kind size infoErr =>
    cases infoErr with
    | some e => simp [Node.readable] at hr
    | none =>
      have hb' : s.total + (size : Int) < 2 ^ 63 := by
        simpa [Node.entryBytes, Node.entries] using hb
      simp [walkDir, walkFn, Node.IsDir, Node.Info, Node.entryCount, Node.entryBytes, Node.entries,
        int64_of_range _ (by omega) hb']
  | .dir name children readErr =>
    by_cases hs : EqualFold name ".svn" = true
    · have he : entriesOf children = [] := by
        simpa [Node.metadataFree, hs] using hm
      simp [walkDir, walkFn, Node.IsDir, Node.Name, hs, Node.entryCount, Node.entryBytes,
        Node.entries, he]
    · have hs : EqualFold name ".svn" = false := by simpa using hs
      simp only [Node.readable, hs, Bool.false_or, Bool.and_eq_true] at hr
      simp only [Node.metadataFree, hs] at hm
      have hre : readErr = none := by simpa using hr.1
      subst hre
      have := walkEntries_count children path names s hr.2 (by simpa using hm) h0
        (by simpa [Node.entryBytes, Node.entries] using hb)
      simpa [walkDir, walkFn, Node.IsDir, Node.Name, hs, Node.entryCount, Node.entryBytes,
        Node.entries] using this
theorem walkEntries_count (ds : List Node) (path : String) (names : List String) (s : WalkState)
    (hr : readableAll ds = true) (hm : metadataFreeAll ds = true)
    (h0 : 0 ≤ s.total) (hb : s.total + ((entriesOf ds).map Prod.snd).sum < 2 ^ 63) :
    (walkEntries walkFn path names ds s).2 = none ∧
    (walkEntries walkFn path names ds s).1.files.length = s.files.length + (entriesOf ds).length ∧
    (walkEntries walkFn path names ds s).1.total = s.total + ((entriesOf ds).map Prod.snd).sum := by
  match ds with
  | [] => simp [walkEntries, entriesOf]
  | d :: rest =>
    simp only [readableAll, Bool.and_eq_true] at hr
    simp only [metadataFreeAll, Bool.and_eq_true] at hm
    simp only [entriesOf, List.map_append, List.sum_append, Nat.cast_add, List.length_append] at hb ⊢
    have hd := walkDir_count d (Join path d.Name) (names ++ [d.Name]) s hr.1 hm.1 h0
      (by simp only [Node.entryBytes]; omega)
    obtain ⟨hd2, hdl, hdt⟩ := hd
    have hrest := walkEntries_count rest path names
      (walkDir walkFn (Join path d.Name) (names ++ [d.Name]) d s).1 hr.2 hm.2
      (by rw [hdt]; simp only [Node.entryBytes]; omega)
      (by rw [hdt]; simp only [Node.entryBytes]; omega)
    obtain ⟨hr2, hrl, hrt⟩ := hrest
    rw [walkEntries]
    generalize hw : walkDir walkFn (Join path d.Name) (names ++ [d.Name]) d s = w at *
    obtain ⟨s1, e1⟩ := w
    simp only at hd2 hdl hdt hr2 hrl hrt
    subst hd2
    simp only [hr2, hrl, hrt, hdl, hdt, Node.entryCount, Node.entryBytes]
    refine ⟨trivial, by omega, by omega⟩
end

mutual
theorem walkDir_recorded (d : Node) (path : String) (init : List String) (s : WalkState)
    (hinit : ∀ x ∈ init, EqualFold x ".svn" = false) :
    ∃ new, (walkDir walkFn path (init ++ [d.Name]) d s).1.files = s.files ++ new ∧
      ∀ f ∈ new, ∃ q ∈ [d.Name] :: d.paths.map (fun p => d.Name :: p), RecordedAt f (init ++ q) := by
  match d with
  | .entry name kind size infoErr =>
    cases infoErr with
    | some e => exact ⟨[], by simp [walkDir, walkFn, Node.IsDir, Node.Info]⟩
    | none =>
      refine ⟨[⟨relSlash (init ++ [name]), path, size⟩], by
        simp [walkDir, walkFn, Node.IsDir, Node.Info, Node.Name], ?_⟩
      intro f hf
      simp only [List.mem_singleton] at hf
      subst hf
      refine ⟨[name], by simp [Node.Name], ?_, ?_⟩
      · simp [relSlash]
      · simpa using hinit
  | .dir name children readErr =>
    by_cases hs : EqualFold name ".svn" = true
    · exact ⟨[], by simp [walkDir, walkFn, Node.IsDir, Node.Name, hs]⟩
    · have hs : EqualFold name ".svn" = false := by simpa using hs
      cases readErr with
      | some e => exact ⟨[], by simp [walkDir, walkFn, Node.IsDir, Node.Name, hs]⟩
      | none =>
        obtain ⟨new, hnew, hrec⟩ := walkEntries_recorded children path (init ++ [name]) s
          (by
            intro x hx
            rcases List.mem_append.1 hx with h | h
            · exact hinit x h
            · simp only [List.mem_singleton] at h; subst h; exact hs)
        refine ⟨new, by simpa [walkDir, walkFn, Node.IsDir, Node.Name, hs] using hnew, ?_⟩
        intro f hf
        obtain ⟨q, hq, hfq⟩ := hrec f hf
        refine ⟨name :: q, by simp [Node.Name, Node.paths, hq], ?_⟩
        simpa [List.append_assoc] using hfq
theorem walkEntries_recorded (ds : List Node) (path : String) (names : List String) (s : WalkState)
    (hnames : ∀ x ∈ names, EqualFold x ".svn" = false) :
    ∃ new, (walkEntries walkFn path names ds s).1.files = s.files ++ new ∧
      ∀ f ∈ new, ∃ q ∈ pathsOf ds, RecordedAt f (names ++ q) := by
  match ds with
  | [] => exact ⟨[], by simp [walkEntries]⟩
  | d :: rest =>
    obtain ⟨new1, hnew1, hrec1⟩ := walkDir_recorded d (Join path d.Name) names s hnames
    obtain ⟨new2, hnew2, hrec2⟩ := walkEntries_recorded rest path names
      (walkDir walkFn (Join path d.Name) (names ++ [d.Name]) d s).1 hnames
    rw [walkEntries]
    generalize walkDir walkFn (Join path d.Name) (names ++ [d.Name]) d s = w at *
    obtain ⟨s1, e1⟩ := w
    simp only at hnew1 hnew2
    cases e1 with
    | some e =>
      refine ⟨new1, by simpa using hnew1, ?_⟩
      intro f hf
      obtain ⟨q, hq, hfq⟩ := hrec1 f hf
      exact ⟨q, by simp only [pathsOf]; exact List.mem_append_left _ hq, hfq⟩
    | none =>
      refine ⟨new1 ++ new2, by simp only [hnew2, hnew1, List.append_assoc], ?_⟩
      intro f hf
      rcases List.mem_append.1 hf with h | h
      · obtain ⟨q, hq, hfq⟩ := hrec1 f h
        exact ⟨q, by simp only [pathsOf]; exact List.mem_append_left _ hq, hfq⟩
      · obtain ⟨q, hq, hfq⟩ := hrec2 f h
        exact ⟨q, by simp only [pathsOf]; exact List.mem_append_right _ hq, hfq⟩
end

theorem pathsOf_ne_nil (ds : List Node) : ∀ p ∈ pathsOf ds, p ≠ [] := by
  induction ds with
  | nil => simp [pathsOf]
  | cons d rest ih =>
    intro p hp
    simp only [pathsOf, List.cons_append, List.mem_cons, List.mem_append, List.mem_map] at hp
    rcases hp with h | ⟨q, _, h⟩ | h
    · simp [h]
    · simp [← h]
    · exact ih p h

mutual
theorem hidden_paths (d : Node) :
    ∀ p ∈ d.hidden, p ∈ d.paths ∧
      (EqualFold d.Name ".svn" = false → ∃ x ∈ p.dropLast, EqualFold x ".svn" = true) := by
  match d with
  | .entry name kind size infoErr => simp [Node.hidden]
  | .dir name children readErr =>
    intro p hp
    by_cases hs : EqualFold name ".svn" = true
    · simp only [Node.hidden, hs, if_true] at hp
      exact ⟨by simpa [Node.paths] using hp, by simp [Node.Name, hs]⟩
    · have hs : EqualFold name ".svn" = false := by simpa using hs
      simp only [Node.hidden, hs] at hp
      obtain ⟨h1, h2⟩ := hiddenAll_paths children p (by simpa using hp)
      exact ⟨by simpa [Node.paths] using h1, fun _ => h2⟩
theorem hiddenAll_paths (ds : List Node) :
    ∀ p ∈ hiddenAll ds, p ∈ pathsOf ds ∧ ∃ x ∈ p.dropLast, EqualFold x ".svn" = true := by
  match ds with
  | [] => simp [hiddenAll]
  | d :: rest =>
    intro p hp
    simp only [hiddenAll, List.mem_append, List.mem_map] at hp
    rcases hp with ⟨q, hq, rfl⟩ | h
    · obtain ⟨h1, h2⟩ := hidden_paths d q hq
      have hq0 : q ≠ [] := by
        cases d with
        | entry name kind size infoErr => simp [Node.paths] at h1
        | dir name children readErr => exact pathsOf_ne_nil children q (by simpa [Node.paths] using h1)
      refine ⟨by simp only [pathsOf]; exact List.mem_append_left _ (List.mem_cons_of_mem _
        (List.mem_map_of_mem _ h1)), ?_⟩
      rw [List.dropLast_cons_of_ne_nil hq0]
      by_cases hs : EqualFold d.Name ".svn" = true
      · exact ⟨d.Name, List.mem_cons_self _ _, hs⟩
      · obtain ⟨x, hx, hxs⟩ := h2 (by simpa using hs)
        exact ⟨x, List.mem_cons_of_mem _ hx, hxs⟩
    · obtain ⟨h1, h2⟩ := hiddenAll_paths rest p h
      exact ⟨by simp only [pathsOf]; exact List.mem_append_right _ h1, h2⟩
end

theorem slash_split (a b x y : List Char) (ha : '/' ∉ a) (hb : '/' ∉ b)
    (h : a ++ '/' :: x = b ++ '/' :: y) : a = b ∧ x = y := by
  induction a generalizing b with
  | nil =>
    cases b with
    | nil => simpa using h
    | cons c b =>
      simp only [List.nil_append, List.cons_append, List.cons.injEq] at h
      exact absurd (h.1 ▸ List.mem_cons_self _ _) hb
  | cons c a ih =>
    cases b with
    | nil =>
      simp only [List.nil_append, List.cons_append, List.cons.injEq] at h
      exact absurd (h.1 ▸ List.mem_cons_self _ _) ha
    | cons c' b =>
      simp only [List.cons_append, List.cons.injEq] at h
      obtain ⟨h1, h2⟩ := ih b (fun hm => ha (List.mem_cons_of_mem _ hm))
        (fun hm => hb (List.mem_cons_of_mem _ hm)) h.2
      exact ⟨by rw [h.1, h1], h2⟩

theorem joinSlash_toList (a b : String) (rest : List String) :
    (joinSlash (a :: b :: rest)).toList = a.toList ++ '/' :: (joinSlash (b :: rest)).toList := by
  simp [joinSlash, String.toList]

theorem joinSlash_injective (p q : List String) (hp0 : p ≠ []) (hq0 : q ≠ [])
    (hp : ∀ x ∈ p, '/' ∉ x.toList) (hq : ∀ x ∈ q, '/' ∉ x.toList)
    (h : joinSlash p = joinSlash q) : p = q := by
  induction p generalizing q with
  | nil => exact absurd rfl hp0
  | cons a p ih =>
    cases q with
    | nil => exact absurd rfl hq0
    | cons b q =>
      have h' := congrArg String.toList h
      cases p with
      | nil =>
        cases q with
        | nil => simpa [joinSlash] using h
        | cons b' q =>
          rw [joinSlash_toList] at h'
          simp only [joinSlash] at h'
          exact absurd (h' ▸ List.mem_append_right _ (List.mem_cons_self _ _))
            (hp a (List.mem_cons_self _ _))
      | cons a' p =>
        cases q with
        | nil =>
          rw [joinSlash_toList] at h'
          simp only [joinSlash] at h'
          exact absurd (h'.symm ▸ List.mem_append_right _ (List.mem_cons_self _ _))
            (hq b (List.mem_cons_self _ _))
        | cons b' q =>
          rw [joinSlash_toList, joinSlash_toList] at h'
          obtain ⟨h1, h2⟩ := slash_split _ _ _ _ (hp a (List.mem_cons_self _ _))
            (hq b (List.mem_cons_self _ _)) h'
          have hab : a = b := String.ext h1
          have := ih (b' :: q) (by simp) (by simp)
            (fun x hx => hp x (List.mem_cons_of_mem _ hx))
            (fun x hx => hq x (List.mem_cons_of_mem _ hx)) (String.ext h2)
          rw [hab, this]

/-! ## Extraction and hidden paths -/

theorem walk_root_recorded (root name : String) (children : List Node) (readErr : Option GoError) :
    ∀ f ∈ (walkDir walkFn root [] (.dir name children readErr) ⟨[], 0⟩).1.files,
      EqualFold name ".svn" = false ∧ ∃ q ∈ pathsOf children, RecordedAt f q := by
  intro f hf
  by_cases hs : EqualFold name ".svn" = true
  · simp [walkDir, walkFn, Node.IsDir, Node.Name, hs] at hf
  · have hs : EqualFold name ".svn" = false := by simpa using hs
    cases readErr with
    | some e => simp [walkDir, walkFn, Node.IsDir, Node.Name, hs] at hf
    | none =>
      obtain ⟨new, hnew, hrec⟩ := walkEntries_recorded children root [] ⟨[], 0⟩ (by simp)
      simp only [walkDir, walkFn, Node.IsDir, Node.Name, hs, if_true, Bool.false_eq_true,
        if_false] at hf
      rw [hnew] at hf
      obtain ⟨q, hq, hfq⟩ := hrec f (by simpa using hf)
      exact ⟨hs, q, hq, by simpa using hfq⟩

theorem extract_files (now : Time) (sourceRoot : String) (stat : Except GoError Node) (t : Node)
    (snapshot : Snapshot) (manifest : Manifest)
    (hext : ExtractSnapshotFromWorkingCopy now sourceRoot stat (.ok t) = .ok (snapshot, manifest)) :
    snapshot.Files = (walkDir walkFn sourceRoot [] t ⟨[], 0⟩).1.files := by
  unfold ExtractSnapshotFromWorkingCopy at hext
  cases stat with
  | error e => simp at hext
  | ok info =>
    by_cases hd : info.IsDir = true
    · simp only [hd, Bool.not_true, Bool.false_eq_true, if_false, WalkDir] at hext
      generalize walkDir walkFn sourceRoot [] t ⟨[], 0⟩ = r at hext
      obtain ⟨s, e⟩ := r
      cases e with
      | none =>
        simp only [Except.ok.injEq, Prod.mk.injEq] at hext
        rw [← hext.1]
      | some e =>
        by_cases hk : e = .skipDir
        · subst hk
          simp only [if_true, Except.ok.injEq, Prod.mk.injEq] at hext
          rw [← hext.1]
        · simp [hk] at hext
    · simp [hd] at hext

theorem extract_not_hidden (now : Time) (sourceRoot : String) (stat : Except GoError Node)
    (t : Node) (snapshot : Snapshot)
    (manifest : Manifest) (hnames : t.wellNamed)
    (hext : ExtractSnapshotFromWorkingCopy now sourceRoot stat (.ok t) = .ok (snapshot, manifest))
    (p : List String) (hp : p ∈ t.hidden) :
    ∀ f ∈ snapshot.Files, f.RelPath ≠ joinSlash p := by
  have hfiles := extract_files now sourceRoot stat t snapshot manifest hext
  cases t with
  | entry name kind size infoErr => simp [Node.hidden] at hp
  | dir name children readErr =>
    intro f hf hfp
    rw [hfiles] at hf
    obtain ⟨hs, q, hq, hrel, hvis⟩ := walk_root_recorded sourceRoot name children readErr f hf
    obtain ⟨hp1, hp2⟩ := hidden_paths _ p hp
    obtain ⟨x, hx, hxs⟩ := hp2 hs
    simp only [Node.paths] at hp1
    have hpq : q = p := by
      refine joinSlash_injective q p (pathsOf_ne_nil _ q hq) (pathsOf_ne_nil _ p hp1)
        (hnames q hq) (hnames p hp1) ?_
      rw [← hrel, hfp]
    subst hpq
    rw [hvis x hx] at hxs
    cases hxs

/-! ## Staging -/

theorem mem_writeAt (l : List (String × Bytes)) (p : String) (d : Bytes) (e : String × Bytes) :
    e ∈ writeAt l p d ↔ (e ∈ l ∧ e.1 ≠ p) ∨ e = (p, d) := by
  simp [writeAt, List.mem_filter]

theorem lookup_writeAt (l : List (String × Bytes)) (p : String) (d : Bytes) :
    (writeAt l p d).lookup p = some d := by
  induction l with
  | nil => simp [writeAt, List.lookup]
  | cons e l ih =>
    obtain ⟨k, v⟩ := e
    by_cases hk : k = p
    · simpa [writeAt, List.filter, hk] using ih
    · have hpk : (p == k) = false := by simpa using fun h => hk h.symm
      simpa [writeAt, List.filter, hk, List.lookup, hpk] using ih

theorem lookup_absent (l : List (String × Bytes)) (p : String) (h : ∀ e ∈ l, e.1 ≠ p) :
    l.lookup p = none := by
  induction l with
  | nil => rfl
  | cons e l ih =>
    obtain ⟨k, v⟩ := e
    have hk : k ≠ p := h (k, v) (List.mem_cons_self _ _)
    have hpk : (p == k) = false := by simpa using fun h' => hk h'.symm
    simp only [List.lookup, hpk]
    exact ih (fun e he => h e (List.mem_cons_of_mem _ he))

theorem readFile_source (env : StageEnv) (files : List (String × Bytes)) (path : String)
    (data : Bytes) (habsent : ∀ e ∈ files, e.1 ≠ Clean path)
    (h : readFile env files path = .ok data) : env.source (Clean path) = some data := by
  unfold readFile at h
  cases ho : env.openErr path with
  | some e => simp [ho] at h
  | none =>
    simp only [ho, lookup_absent files (Clean path) habsent] at h
    cases hs : env.source (Clean path) with
    | none => simp [hs] at h
    | some d =>
      simp only [hs, Except.ok.injEq] at h
      rw [h]

theorem copyFileContents_ok (env : StageEnv) (src dst : String) (repo repo1 : Repository)
    (h : copyFileContents env src dst repo = (repo1, none)) :
    ∃ data, readFile env (writeAt repo.files (Clean dst) []) src = .ok data ∧
      repo1 = { repo with files := writeAt repo.files (Clean dst) data } := by
  unfold copyFileContents at h
  cases ho : readFile env repo.files src with
  | error e => simp [ho] at h
  | ok first =>
    simp only [ho] at h
    cases hc : env.create dst with
    | some e => simp [hc] at h
    | none =>
      simp only [hc] at h
      cases hr : readFile env (writeAt repo.files (Clean dst) []) src with
      | error e => simp [hr] at h
      | ok data =>
        simp only [hr] at h
        cases hcp : env.copy src dst with
        | some ne => simp [hcp] at h
        | none =>
          simp only [hcp, Prod.mk.injEq] at h
          exact ⟨data, rfl, h.1.symm⟩

theorem copyFileContents_kept (env : StageEnv) (src dst : String) (repo : Repository) :
    (copyFileContents env src dst repo).1.commits = repo.commits ∧
    (copyFileContents env src dst repo).1.remotes = repo.remotes := by
  unfold copyFileContents
  cases readFile env repo.files src with
  | error e => exact ⟨rfl, rfl⟩
  | ok first =>
    cases env.create dst with
    | some e => exact ⟨rfl, rfl⟩
    | none =>
      cases readFile env (writeAt repo.files (Clean dst) []) src with
      | error e => exact ⟨rfl, rfl⟩
      | ok data =>
        cases env.copy src dst with
        | some ne => exact ⟨rfl, rfl⟩
        | none => exact ⟨rfl, rfl⟩

theorem Add_kept (env : StageEnv) (repoPath : String) (repo : Repository) (path : String) :
    (Add env repoPath repo path).1.commits = repo.commits ∧
    (Add env repoPath repo path).1.remotes = repo.remotes := by
  unfold Add
  cases env.add path with
  | some e => exact ⟨rfl, rfl⟩
  | none =>
    cases repo.files.lookup (Clean (Join repoPath path)) with
    | none => exact ⟨rfl, rfl⟩
    | some data => exact ⟨rfl, rfl⟩

theorem Add_ok (env : StageEnv) (repoPath : String) (repo repo1 : Repository) (path : String)
    (h : Add env repoPath repo path = (repo1, none)) :
    ∃ data, repo.files.lookup (Clean (Join repoPath path)) = some data ∧
      repo1 = { repo with index := writeAt repo.index path data } := by
  unfold Add at h
  cases ha : env.add path with
  | some e => simp [ha] at h
  | none =>
    simp only [ha] at h
    cases hl : repo.files.lookup (Clean (Join repoPath path)) with
    | none => simp [hl] at h
    | some data =>
      simp only [hl, Prod.mk.injEq] at h
      exact ⟨data, rfl, h.1.symm⟩

theorem stageFiles_kept (env : StageEnv) (repoPath : String) (fs : List SnapshotFile)
    (repo : Repository) :
    (stageFiles env repoPath fs repo).1.commits = repo.commits ∧
    (stageFiles env repoPath fs repo).1.remotes = repo.remotes := by
  induction fs generalizing repo with
  | nil => exact ⟨rfl, rfl⟩
  | cons f rest ih =>
    cases hm : env.mkdirAll (Dir (Join repoPath f.RelPath)) with
    | some e => simp only [stageFiles, hm, and_self]
    | none =>
      have h1 := copyFileContents_kept env f.SrcPath (Join repoPath f.RelPath) repo
      cases hc : copyFileContents env f.SrcPath (Join repoPath f.RelPath) repo with
      | mk repo1 e1 =>
        rw [hc] at h1
        cases e1 with
        | some e => simp only [stageFiles, hm, hc]; exact h1
        | none =>
          have h2 := Add_kept env repoPath repo1 f.RelPath
          cases ha : Add env repoPath repo1 f.RelPath with
          | mk repo2 e2 =>
            rw [ha] at h2
            cases e2 with
            | some e =>
              simp only [stageFiles, hm, hc, ha]
              exact ⟨h2.1.trans h1.1, h2.2.trans h1.2⟩
            | none =>
              simp only [stageFiles, hm, hc, ha]
              exact ⟨(ih repo2).1.trans (h2.1.trans h1.1), (ih repo2).2.trans (h2.2.trans h1.2)⟩

theorem stageManifest_kept (env : StageEnv) (repoPath : String) (m : Option Manifest)
    (repo : Repository) :
    (stageManifest env repoPath m repo).1.commits = repo.commits ∧
    (stageManifest env repoPath m repo).1.remotes = repo.remotes := by
  cases m with
  | none => exact ⟨rfl, rfl⟩
  | some m =>
    cases hw : env.writeFile (Join repoPath "SVN_IMPORT_MANIFEST.txt") with
    | some e => simp only [stageManifest, hw, and_self]
    | none =>
      have h2 := Add_kept env repoPath
        ⟨writeAt repo.files (Clean (Join repoPath "SVN_IMPORT_MANIFEST.txt"))
          (buildManifestText m).toUTF8.data.toList, repo.index, repo.commits, repo.remotes⟩
        "SVN_IMPORT_MANIFEST.txt"
      cases ha : Add env repoPath
        ⟨writeAt repo.files (Clean (Join repoPath "SVN_IMPORT_MANIFEST.txt"))
          (buildManifestText m).toUTF8.data.toList, repo.index, repo.commits, repo.remotes⟩
        "SVN_IMPORT_MANIFEST.txt" with
      | mk repo2 e2 =>
        rw [ha] at h2
        cases e2 with
        | some e => simp only [stageManifest, hw, ha]; exact h2
        | none => simp only [stageManifest, hw, ha]; exact h2

/-- One round of the staging loop that succeeds: the file is written to its
destination and registered under its relative path with the bytes written. -/
theorem stage_one (env : StageEnv) (repoPath : String) (f : SnapshotFile)
    (repo repo1 repo2 : Repository)
    (hc : copyFileContents env f.SrcPath (Join repoPath f.RelPath) repo = (repo1, none))
    (ha : Add env repoPath repo1 f.RelPath = (repo2, none)) :
    ∃ data, readFile env (writeAt repo.files (Clean (Join repoPath f.RelPath)) []) f.SrcPath
        = .ok data ∧
      repo2.files = writeAt repo.files (Clean (Join repoPath f.RelPath)) data ∧
      repo2.index = writeAt repo.index f.RelPath data := by
  obtain ⟨data, hread, hrepo1⟩ := copyFileContents_ok env _ _ _ _ hc
  obtain ⟨data', hlook, hrepo2⟩ := Add_ok env _ _ _ _ ha
  have hdd : data' = data := by
    rw [hrepo1] at hlook
    simp only [lookup_writeAt] at hlook
    exact (Option.some.inj hlook).symm
  subst hdd
  exact ⟨data', hread, by rw [hrepo2, hrepo1], by rw [hrepo2, hrepo1]⟩

theorem stageFiles_ok (env : StageEnv) (repoPath : String) (fs : List SnapshotFile)
    (repo repo' : Repository) (h : stageFiles env repoPath fs repo = (repo', none)) :
    Staged fs repo.index repo'.index := by
  induction fs generalizing repo with
  | nil =>
    simp only [stageFiles, Prod.mk.injEq] at h
    rw [← h.1]
    exact ⟨by simp, fun e he => Or.inl he⟩
  | cons f rest ih =>
    simp only [stageFiles] at h
    cases hm : env.mkdirAll (Dir (Join repoPath f.RelPath)) with
    | some e => simp [hm] at h
    | none =>
      simp only [hm] at h
      cases hc : copyFileContents env f.SrcPath (Join repoPath f.RelPath) repo with
      | mk repo1 e1 =>
        cases e1 with
        | some e => simp [hc] at h
        | none =>
          simp only [hc] at h
          cases ha : Add env repoPath repo1 f.RelPath with
          | mk repo2 e2 =>
            cases e2 with
            | some e => simp [ha] at h
            | none =>
              simp only [ha] at h
              obtain ⟨data', -, -, hidx⟩ := stage_one env repoPath f repo repo1 repo2 hc ha
              obtain ⟨ih1, ih2⟩ := ih repo2 h
              constructor
              · intro p
                rw [ih1 p, hidx]
                simp only [List.mem_map, mem_writeAt, List.mem_cons, Prod.exists]
                constructor
                · rintro (⟨a, b, (⟨hab, -⟩ | hab), rfl⟩ | ⟨g, hg, rfl⟩)
                  · exact Or.inl ⟨a, b, hab, rfl⟩
                  · simp only [Prod.mk.injEq] at hab
                    exact Or.inr ⟨f, Or.inl rfl, hab.1.symm⟩
                  · exact Or.inr ⟨g, Or.inr hg, rfl⟩
                · rintro (⟨a, b, hab, rfl⟩ | ⟨g, (rfl | hg), rfl⟩)
                  · by_cases hap : a = f.RelPath
                    · exact Or.inl ⟨a, data', Or.inr (by rw [hap]), rfl⟩
                    · exact Or.inl ⟨a, b, Or.inl ⟨hab, hap⟩, rfl⟩
                  · exact Or.inl ⟨g.RelPath, data', Or.inr rfl, rfl⟩
                  · exact Or.inr ⟨g, hg, rfl⟩
              · intro e he
                rcases ih2 e he with h1 | ⟨g, hg, hge⟩
                · rw [hidx, mem_writeAt] at h1
                  rcases h1 with ⟨h1, -⟩ | h1
                  · exact Or.inl h1
                  · exact Or.inr ⟨f, List.mem_cons_self _ _, by rw [h1]⟩
                · exact Or.inr ⟨g, List.mem_cons_of_mem _ hg, hge⟩

/-- When no source is among the destinations `dest`, which hold everything
written so far, a successful staging registers under each new path the bytes
its source held before the run, and writes only to destinations. -/
theorem stageFiles_content (env : StageEnv) (repoPath : String) (dest : String → Prop)
    (fs : List SnapshotFile) (repo repo' : Repository)
    (hdst : ∀ g ∈ fs, dest (Clean (Join repoPath g.RelPath)))
    (hsrc : ∀ f ∈ fs, ¬ dest (Clean f.SrcPath))
    (hkeys : ∀ e ∈ repo.files, dest e.1)
    (h : stageFiles env repoPath fs repo = (repo', none)) :
    ∀ e ∈ repo'.index, e ∈ repo.index ∨
      ∃ f ∈ fs, f.RelPath = e.1 ∧ env.source (Clean f.SrcPath) = some e.2 := by
  induction fs generalizing repo with
  | nil =>
    simp only [stageFiles, Prod.mk.injEq] at h
    rw [← h.1]
    exact fun e he => Or.inl he
  | cons f rest ih =>
    simp only [stageFiles] at h
    cases hm : env.mkdirAll (Dir (Join repoPath f.RelPath)) with
    | some e => simp [hm] at h
    | none =>
      simp only [hm] at h
      cases hc : copyFileContents env f.SrcPath (Join repoPath f.RelPath) repo with
      | mk repo1 e1 =>
        cases e1 with
        | some e => simp [hc] at h
        | none =>
          simp only [hc] at h
          cases ha : Add env repoPath repo1 f.RelPath with
          | mk repo2 e2 =>
            cases e2 with
            | some e => simp [ha] at h
            | none =>
              simp only [ha] at h
              obtain ⟨data, hread, hfiles, hidx⟩ := stage_one env repoPath f repo repo1 repo2 hc ha
              have hfd : dest (Clean (Join repoPath f.RelPath)) := hdst f (List.mem_cons_self _ _)
              have hfs : ¬ dest (Clean f.SrcPath) := hsrc f (List.mem_cons_self _ _)
              have hsource : env.source (Clean f.SrcPath) = some data := by
                refine readFile_source env _ f.SrcPath data ?_ hread
                intro e he heq
                rcases (mem_writeAt _ _ _ _).1 he with ⟨he', -⟩ | he'
                · exact hfs (heq ▸ hkeys e he')
                · rw [he'] at heq
                  exact hfs (heq ▸ hfd)
              have hkeys2 : ∀ e ∈ repo2.files, dest e.1 := by
                intro e he
                rw [hfiles] at he
                rcases (mem_writeAt _ _ _ _).1 he with ⟨he', -⟩ | he'
                · exact hkeys e he'
                · rw [he']; exact hfd
              intro e he
              rcases ih repo2 (fun g hg => hdst g (List.mem_cons_of_mem _ hg))
                (fun g hg => hsrc g (List.mem_cons_of_mem _ hg)) hkeys2 h e he with h1 | ⟨g, hg, hge⟩
              · rw [hidx, mem_writeAt] at h1
                rcases h1 with ⟨h1, -⟩ | h1
                · exact Or.inl h1
                · exact Or.inr ⟨f, List.mem_cons_self _ _, by rw [h1], by rw [h1]; exact hsource⟩
              · exact Or.inr ⟨g, List.mem_cons_of_mem _ hg, hge⟩

theorem stageManifest_ok (env : StageEnv) (repoPath : String) (m : Manifest)
    (repo repo' : Repository) (h : stageManifest env repoPath (some m) repo = (repo', none)) :
    repo'.index = writeAt repo.index "SVN_IMPORT_MANIFEST.txt" (buildManifestText m).toUTF8.data.toList := by
  cases hw : env.writeFile (Join repoPath "SVN_IMPORT_MANIFEST.txt") with
  | some e => simp [stageManifest, hw] at h
  | none =>
    cases ha : Add env repoPath
      ⟨writeAt repo.files (Clean (Join repoPath "SVN_IMPORT_MANIFEST.txt"))
        (buildManifestText m).toUTF8.data.toList, repo.index, repo.commits, repo.remotes⟩
      "SVN_IMPORT_MANIFEST.txt" with
    | mk repo2 e2 =>
      cases e2 with
      | some e => simp [stageManifest, hw, ha] at h
      | none =>
        simp only [stageManifest, hw, ha, Prod.mk.injEq, and_true] at h
        subst h
        obtain ⟨data, hlook, hrepo2⟩ := Add_ok env _ _ _ _ ha
        simp only [lookup_writeAt, Option.some.injEq] at hlook
        rw [hrepo2, hlook]

theorem stageFiles_copy_fails (env : StageEnv) (repoPath : String) (fs : List SnapshotFile)
    (repo : Repository) (f : SnapshotFile) (hf : f ∈ fs)
    (hcopy : ∀ r, (copyFileContents env f.SrcPath (Join repoPath f.RelPath) r).2 ≠ none) :
    (stageFiles env repoPath fs repo).2 ≠ none := by
  induction fs generalizing repo with
  | nil => simp at hf
  | cons g rest ih =>
    cases hm : env.mkdirAll (Dir (Join repoPath g.RelPath)) with
    | some e => simp [stageFiles, hm]
    | none =>
      cases hc : copyFileContents env g.SrcPath (Join repoPath g.RelPath) repo with
      | mk repo1 e1 =>
        cases e1 with
        | some e => simp [stageFiles, hm, hc]
        | none =>
          cases ha : Add env repoPath repo1 g.RelPath with
          | mk repo2 e2 =>
            cases e2 with
            | some e => simp [stageFiles, hm, hc, ha]
            | none =>
              simp only [stageFiles, hm, hc, ha]
              rcases List.mem_cons.1 hf with h | h
              · subst h
                exact absurd (by rw [hc]) (hcopy repo)
              · exact ih repo2 h

theorem transform_in_workdir (env : StageEnv) (snapshot : Snapshot) (opts : TransformOptions)
    (workdir : String) (hwd : WorkDirIs env opts workdir) :
    TransformOutcome env snapshot opts
      (match env.mkdirAll (Join workdir "repo") with
        | some err => ((.error (.wrap "create repo dir" err) : Except GoError String), Repository.empty)
        | none =>
          match env.plainInit (Join workdir "repo") with
          | some err => (.error (.wrap "init repo" err), Repository.empty)
          | none =>
            match env.worktree with
            | some err => (.error (.wrap "get worktree" err), Repository.empty)
            | none =>
              match stageFiles env (Join workdir "repo") snapshot.Files Repository.empty with
              | (repo1, some err) => (.error err, repo1)
              | (repo1, none) =>
                match stageManifest env (Join workdir "repo") opts.Manifest repo1 with
                | (repo2, some err) => (.error err, repo2)
                | (repo2, none) =>
                  match commitIndex env (if opts.Message = "" then "SVN import" else opts.Message)
                      ⟨opts.Author, opts.Email, env.now⟩ ⟨opts.Author, opts.Email, env.now⟩ repo2 with
                  | (repo3, some err) => (.error (.wrap "commit" err), repo3)
                  | (repo3, none) => (.ok (Join workdir "repo"), repo3)) := by
  cases h1 : env.mkdirAll (Join workdir "repo") with
  | some e => exact Or.inl ⟨_, rfl, rfl⟩
  | none =>
    dsimp only
    cases h2 : env.plainInit (Join workdir "repo") with
    | some e => exact Or.inl ⟨_, rfl, rfl⟩
    | none =>
      dsimp only
      cases h3 : env.worktree with
      | some e => exact Or.inl ⟨_, rfl, rfl⟩
      | none =>
        dsimp only
        have c1 := stageFiles_kept env (Join workdir "repo") snapshot.Files Repository.empty
        cases h4 : stageFiles env (Join workdir "repo") snapshot.Files Repository.empty with
        | mk repo1 e1 =>
          rw [h4] at c1
          cases e1 with
          | some e => exact Or.inl ⟨_, rfl, c1.1⟩
          | none =>
            dsimp only
            have c2 := stageManifest_kept env (Join workdir "repo") opts.Manifest repo1
            cases h5 : stageManifest env (Join workdir "repo") opts.Manifest repo1 with
            | mk repo2 e2 =>
              rw [h5] at c2
              have c3 : repo2.commits = [] := c2.1.trans c1.1
              have c4 : repo2.remotes = [] := c2.2.trans c1.2
              cases e2 with
              | some e => exact Or.inl ⟨_, rfl, c3⟩
              | none =>
                dsimp only
                cases h6 : env.commit with
                | some e =>
                  refine Or.inl ⟨.wrap "commit" e, ?_, ?_⟩
                  · simp only [commitIndex, h6]
                  · simp only [commitIndex, h6]; exact c3
                | none =>
                  refine Or.inr ⟨workdir, repo1, repo2, hwd, ?_, h4, h5, c4, ?_⟩
                  · simp only [commitIndex, h6]
                  · simp only [commitIndex, h6, c3, List.nil_append]

theorem TransformToGitRepo_cases (env : StageEnv) (snapshot : Snapshot) (opts : TransformOptions) :
    TransformOutcome env snapshot opts (TransformToGitRepo env snapshot opts) := by
  by_cases hw : opts.WorkDir = ""
  · cases ht : env.mkdirTemp with
    | error e =>
      exact Or.inl ⟨.wrap "create temp dir" e, by simp [TransformToGitRepo, hw, ht], by
        simp [TransformToGitRepo, hw, ht, Repository.empty]⟩
    | ok dir =>
      have := transform_in_workdir env snapshot opts dir (by simp [WorkDirIs, hw, ht])
      simpa [TransformToGitRepo, hw, ht] using this
  · cases hm : env.mkdirAll opts.WorkDir with
    | some e =>
      exact Or.inl ⟨.wrap "ensure workdir" e, by simp [TransformToGitRepo, hw, hm], by
        simp [TransformToGitRepo, hw, hm, Repository.empty]⟩
    | none =>
      have := transform_in_workdir env snapshot opts opts.WorkDir (by simp [WorkDirIs, hw])
      simpa [TransformToGitRepo, hw, hm] using this

theorem transform_ok (env : StageEnv) (snapshot : Snapshot) (opts : TransformOptions)
    (repoPath : String) (h : (TransformToGitRepo env snapshot opts).1 = .ok repoPath) :
    (TransformToGitRepo env snapshot opts).2.commits =
      [⟨if opts.Message = "" then "SVN import" else opts.Message,
        ⟨opts.Author, opts.Email, env.now⟩, ⟨opts.Author, opts.Email, env.now⟩,
        (TransformToGitRepo env snapshot opts).2.index⟩] ∧
    (∀ f ∈ snapshot.Files, opts.Manifest = none ∨ f.RelPath ≠ "SVN_IMPORT_MANIFEST.txt" →
      f.RelPath ∈ (TransformToGitRepo env snapshot opts).2.index.map Prod.fst) ∧
    (∀ m, opts.Manifest = some m →
      ("SVN_IMPORT_MANIFEST.txt", (buildManifestText m).toUTF8.data.toList)
        ∈ (TransformToGitRepo env snapshot opts).2.index) ∧
    (∀ e ∈ (TransformToGitRepo env snapshot opts).2.index,
      (opts.Manifest ≠ none ∧ e.1 = "SVN_IMPORT_MANIFEST.txt") ∨
      ∃ f ∈ snapshot.Files, f.RelPath = e.1) ∧
    (TransformToGitRepo env snapshot opts).2.remotes = [] := by
  rcases TransformToGitRepo_cases env snapshot opts with
    ⟨e, he, -⟩ | ⟨workdir, repo1, repo2, -, -, h1, h2, hrem, h3⟩
  · rw [he] at h; cases h
  · obtain ⟨s1, s2⟩ := stageFiles_ok env _ _ _ _ h1
    simp only [Repository.empty, List.map_nil, List.not_mem_nil, false_or] at s1 s2
    rw [h3]
    refine ⟨rfl, ?_⟩
    dsimp only
    cases hm : opts.Manifest with
    | none =>
      rw [hm] at h2
      simp only [stageManifest, Prod.mk.injEq, and_true] at h2
      subst h2
      refine ⟨fun f hf _ => (s1 f.RelPath).2 (List.mem_map_of_mem _ hf), ?_, ?_, hrem⟩
      · intro m hm'; cases hm'
      · intro e he; exact Or.inr (s2 e he)
    | some m =>
      rw [hm] at h2
      have hidx := stageManifest_ok env _ m repo1 repo2 h2
      rw [hidx]
      refine ⟨?_, ?_, ?_, hrem⟩
      · intro f hf hne
        have hne : f.RelPath ≠ "SVN_IMPORT_MANIFEST.txt" := by
          rcases hne with h | h
          · cases h
          · exact h
        obtain ⟨e, he, hfe⟩ := List.mem_map.1 ((s1 f.RelPath).2 (List.mem_map_of_mem _ hf))
        exact List.mem_map.2 ⟨e, (mem_writeAt _ _ _ _).2 (Or.inl ⟨he, by rw [hfe]; exact hne⟩), hfe⟩
      · intro m' hm'
        cases hm'
        exact (mem_writeAt _ _ _ _).2 (Or.inr rfl)
      · intro e he
        rcases (mem_writeAt _ _ _ _).1 he with ⟨h, -⟩ | h
        · exact Or.inr (s2 e h)
        · exact Or.inl ⟨by simp, by rw [h]⟩

theorem transform_content (env : StageEnv) (snapshot : Snapshot) (opts : TransformOptions)
    (repoPath : String) (h : (TransformToGitRepo env snapshot opts).1 = .ok repoPath)
    (hsrc : ∀ workdir, WorkDirIs env opts workdir →
      SourcesApart (Join workdir "repo") snapshot.Files) :
    ∀ e ∈ (TransformToGitRepo env snapshot opts).2.index, e.1 ≠ "SVN_IMPORT_MANIFEST.txt" →
      ∃ f ∈ snapshot.Files, f.RelPath = e.1 ∧ env.source (Clean f.SrcPath) = some e.2 := by
  rcases TransformToGitRepo_cases env snapshot opts with
    ⟨e, he, -⟩ | ⟨workdir, repo1, repo2, hwd, -, h1, h2, -, h3⟩
  · rw [he] at h; cases h
  · have hc := stageFiles_content env (Join workdir "repo")
      (fun k => ∃ g ∈ snapshot.Files, k = Clean (Join (Join workdir "repo") g.RelPath))
      snapshot.Files Repository.empty repo1 (fun g hg => ⟨g, hg, rfl⟩)
      (fun f hf ⟨g, hg, hk⟩ => (hsrc workdir hwd f hf).2 g hg hk)
      (by simp [Repository.empty]) h1
    simp only [Repository.empty, List.not_mem_nil, false_or] at hc
    rw [h3]
    dsimp only
    intro e he hne
    cases hm : opts.Manifest with
    | none =>
      rw [hm] at h2
      simp only [stageManifest, Prod.mk.injEq, and_true] at h2
      subst h2
      exact hc e he
    | some m =>
      rw [hm] at h2
      rw [stageManifest_ok env _ m repo1 repo2 h2] at he
      rcases (mem_writeAt _ _ _ _).1 he with ⟨h, -⟩ | h
      · exact hc e h
      · exact absurd (by rw [h]) hne

theorem CreateRemote_commits (env : LoadEnv) (repo : Repository) (name : String) (urls : List String) :
    (CreateRemote env repo name urls).1.commits = repo.commits := by
  unfold CreateRemote
  split
  · rfl
  · cases env.createRemote name urls <;> rfl

theorem LoadPushToRemote_commits (env : LoadEnv) (repo repo' : Repository)
    (remoteURL username password : String) (tlsConfig : Option TLSConfig)
    (h : (LoadPushToRemote env (some repo) remoteURL username password tlsConfig).repo = some repo') :
    repo'.commits = repo.commits := by
  have hc := CreateRemote_commits env repo "origin" [remoteURL]
  unfold LoadPushToRemote at h
  by_cases hurl : remoteURL = ""
  · simp only [hurl, if_true, Option.some.injEq] at h
    rw [← h]
  · simp only [if_neg hurl] at h
    cases hr : CreateRemote env repo "origin" [remoteURL] with
    | mk repo1 err =>
      rw [hr] at hc h
      simp only at hc h
      have : repo' = repo1 := by
        repeat' split at h
        all_goals exact (Option.some.inj h).symm
      rw [this, hc]

theorem main_commits (args : cliArgs) (w : World) (repo : Repository) (c : Commit)
    (hrepo : (main args w).repo = some repo) (hc : c ∈ repo.commits) :
    c.Author = ⟨if args.authorName = "" then args.username else args.authorName,
      args.authorEmail, w.stage.now⟩ ∧ c.Committer = c.Author := by
  unfold main at hrepo
  by_cases hu : args.sourcePath = "" ∨ args.targetURL = ""
  · simp [hu] at hrepo
  · simp only [if_neg hu] at hrepo
    have hargs : ∀ a : cliArgs, a = (if args.authorName = "" then { args with authorName := args.username } else args) →
        a.sourcePath = args.sourcePath ∧ a.authorName = (if args.authorName = "" then args.username else args.authorName)
        ∧ a.authorEmail = args.authorEmail := by
      intro a ha
      by_cases hn : args.authorName = ""
      · simp [ha, hn]
      · simp [ha, hn]
    generalize (if args.authorName = "" then { args with authorName := args.username } else args) = a at hargs hrepo
    obtain ⟨ha1, ha2, ha3⟩ := hargs a rfl
    cases hext : ExtractSnapshotFromWorkingCopy w.now a.sourcePath (w.stat a.sourcePath)
        (w.lstat a.sourcePath) with
    | error e => simp [hext] at hrepo
    | ok r =>
      obtain ⟨snapshot, manifest⟩ := r
      simp only [hext] at hrepo
      have hT : ∀ path, (TransformToGitRepo w.stage snapshot
          ⟨a.workdir, a.authorName, a.authorEmail, a.commitMessage, some manifest⟩).1 = .ok path →
          ∀ c ∈ (TransformToGitRepo w.stage snapshot
            ⟨a.workdir, a.authorName, a.authorEmail, a.commitMessage, some manifest⟩).2.commits,
          c.Author = ⟨a.authorName, a.authorEmail, w.stage.now⟩ ∧ c.Committer = c.Author := by
        intro path hp c hc
        rw [(transform_ok _ _ _ path hp).1] at hc
        simp only [List.mem_singleton] at hc
        subst hc
        exact ⟨rfl, rfl⟩
      have hE : ∀ e, (TransformToGitRepo w.stage snapshot
          ⟨a.workdir, a.authorName, a.authorEmail, a.commitMessage, some manifest⟩).1 = .error e →
          (TransformToGitRepo w.stage snapshot
            ⟨a.workdir, a.authorName, a.authorEmail, a.commitMessage, some manifest⟩).2.commits = [] := by
        intro e he
        rcases TransformToGitRepo_cases w.stage snapshot
          ⟨a.workdir, a.authorName, a.authorEmail, a.commitMessage, some manifest⟩ with
          ⟨e', -, h'⟩ | ⟨workdir, repo1, repo2, -, h', -⟩
        · exact h'
        · rw [he] at h'; cases h'
      generalize TransformToGitRepo w.stage snapshot
        ⟨a.workdir, a.authorName, a.authorEmail, a.commitMessage, some manifest⟩ = T at hT hE hrepo
      obtain ⟨ret, trepo⟩ := T
      rw [← ha2, ← ha3]
      cases ret with
      | error e =>
        simp only [Option.some.injEq] at hrepo
        subst hrepo
        rw [hE e rfl] at hc
        cases hc
      | ok path =>
        simp only at hrepo
        by_cases hd : a.dryRun = true
        · simp only [hd, if_true, Option.some.injEq] at hrepo
          subst hrepo
          exact hT path rfl c hc
        · rw [if_neg hd] at hrepo
          have hr : (LoadPushToRemote w.net (some trepo) a.targetURL a.username a.password
              (if a.insecureTLS = true then some ⟨true⟩ else none)).repo = some repo := by
            split at hrepo <;> exact hrepo
          rw [LoadPushToRemote_commits _ _ _ _ _ _ _ hr] at hc
          exact hT path rfl c hc

/-! ## Load -/

theorem LoadPushToRemote_reaches_push (env : LoadEnv) (repo : Repository)
    (remoteURL username password : String) (tlsConfig : Option TLSConfig)
    (hurl : remoteURL ≠ "")
    (hattach : ∀ e, (CreateRemote env repo "origin" [remoteURL]).2 = some e →
      errorsIs e .errRemoteExists = true) :
    LoadPushToRemote env (some repo) remoteURL username password tlsConfig =
      ⟨pushVerdict (env.push ⟨"origin", authFor username password⟩ tlsConfig),
        some (CreateRemote env repo "origin" [remoteURL]).1,
        [(⟨"origin", authFor username password⟩, tlsConfig)]⟩ := by
  have hfilter : (CreateRemote env repo "origin" [remoteURL]).2.filter
      (fun e => !errorsIs e .errRemoteExists) = none := by
    cases h : (CreateRemote env repo "origin" [remoteURL]).2 with
    | none => rfl
    | some e => simp [Option.filter, hattach e h]
  simp only [LoadPushToRemote, if_neg hurl, hfilter, authFor]
  generalize env.push _ tlsConfig = pe
  cases pe with
  | none => simp [pushVerdict]
  | some e =>
    by_cases he : e = .noErrAlreadyUpToDate
    · simp [pushVerdict, he]
    · simp [pushVerdict, he]

/-! ## Timestamps -/

theorem digitChar_digit (k : Nat) (h : k < 10) : Nat.digitChar k = digit k := by
  interval_cases k <;> rfl

theorem toDigitsCore_last (f n : Nat) (ds : List Char) (h : n < 10) :
    Nat.toDigitsCore 10 (f + 1) n ds = digit n :: ds := by
  have h0 : n / 10 = 0 := by omega
  have h1 : n % 10 = n := by omega
  simp [Nat.toDigitsCore, h0, h1, digitChar_digit n h]

theorem toDigitsCore_more (f n : Nat) (ds : List Char) (h : 10 ≤ n) :
    Nat.toDigitsCore 10 (f + 1) n ds = Nat.toDigitsCore 10 f (n / 10) (digit n :: ds) := by
  have h0 : n / 10 ≠ 0 := by omega
  have h1 : Nat.digitChar (n % 10) = digit n := by
    rw [digitChar_digit _ (Nat.mod_lt _ (by omega))]
    simp [digit]
  simp [Nat.toDigitsCore, h0, h1]

theorem digit_zero (n : Nat) (h : n % 10 = 0) : digit n = '0' := by
  simp [digit, h]

theorem repr_digits (n : Nat) (h : n < 10000) :
    (Nat.repr n).data =
      if n < 10 then [digit n]
      else if n < 100 then [digit (n / 10), digit n]
      else if n < 1000 then [digit (n / 100), digit (n / 10), digit n]
      else [digit (n / 1000), digit (n / 100), digit (n / 10), digit n] := by
  simp only [Nat.repr, Nat.toDigits, List.asString]
  by_cases h1 : n < 10
  · simp only [h1, if_true]
    exact toDigitsCore_last n n [] h1
  · simp only [h1, if_false]
    obtain ⟨k, rfl⟩ : ∃ k, n = k + 10 := ⟨n - 10, by omega⟩
    by_cases h2 : k + 10 < 100
    · simp only [h2, if_true]
      rw [toDigitsCore_more _ _ _ (by omega),
        show k + 10 = (k + 9) + 1 from rfl, toDigitsCore_last _ _ _ (by omega)]
    · simp only [h2, if_false]
      by_cases h3 : k + 10 < 1000
      · simp only [h3, if_true]
        rw [toDigitsCore_more _ _ _ (by omega),
          show k + 10 = (k + 9) + 1 from rfl, toDigitsCore_more _ _ _ (by omega),
          show k + 9 = (k + 8) + 1 from rfl, toDigitsCore_last _ _ _ (by omega)]
        simp [Nat.div_div_eq_div_mul]
      · simp only [h3, if_false]
        rw [toDigitsCore_more _ _ _ (by omega),
          show k + 10 = (k + 9) + 1 from rfl, toDigitsCore_more _ _ _ (by omega),
          show k + 9 = (k + 8) + 1 from rfl, toDigitsCore_more _ _ _ (by omega),
          show k + 8 = (k + 7) + 1 from rfl, toDigitsCore_last _ _ _ (by omega)]
        simp [Nat.div_div_eq_div_mul]

theorem zeroPad_two (n : Nat) (h : n < 100) : zeroPad 2 n = twoDigits n := by
  apply String.ext
  have hr := repr_digits n (by omega)
  have hs : toString n = Nat.repr n := rfl
  simp only [zeroPad, hs, twoDigits, String.data_append, String.length, hr]
  by_cases h1 : n < 10
  · simp [h1, digit_zero (n / 10) (by omega)]
  · simp [h1, h]

theorem zeroPad_four (n : Nat) (h : n < 10000) : zeroPad 4 n = fourDigits n := by
  apply String.ext
  have hr := repr_digits n h
  have hs : toString n = Nat.repr n := rfl
  simp only [zeroPad, hs, fourDigits, String.data_append, String.length, hr]
  by_cases h1 : n < 10
  · simp [h1, digit_zero (n / 10) (by omega), digit_zero (n / 100) (by omega),
      digit_zero (n / 1000) (by omega), List.replicate]
  · by_cases h2 : n < 100
    · simp [h1, h2, digit_zero (n / 100) (by omega), digit_zero (n / 1000) (by omega),
        List.replicate]
    · by_cases h3 : n < 1000
      · simp [h1, h2, h3, digit_zero (n / 1000) (by omega), List.replicate]
      · simp [h1, h2, h3]

theorem formatRFC3339_expressible (t : Time) (h : t.expressible) :
    formatRFC3339 t = rfc3339 t := by
  obtain ⟨hy0, hy1, hmo, hd, hh, hmi, hs, ho1, ho2⟩ := h
  have hyear : appendInt t.year 4 = fourDigits t.year.toNat := by
    have : ¬ t.year < 0 := by omega
    have hn : t.year.natAbs = t.year.toNat := by omega
    simp only [appendInt, this, if_false, hn]
    exact zeroPad_four _ (by omega)
  have hzone : formatZone t.offset =
      (if t.offset = 0 then "Z"
       else (if t.offset < 0 then "-" else "+") ++ twoDigits (t.offset.natAbs / 3600) ++ ":" ++
         twoDigits (t.offset.natAbs / 60 % 60)) := by
    unfold formatZone
    by_cases hz : t.offset = 0
    · simp [hz]
    · simp only [hz, if_false]
      have hq : t.offset.natAbs / 60 ≠ 0 := by omega
      have hsign : (t.offset < 0 ∧ t.offset.natAbs / 60 ≠ 0) ↔ t.offset < 0 := by
        constructor
        · exact fun h => h.1
        · exact fun h => ⟨h, hq⟩
      simp only [hsign]
      rw [zeroPad_two _ (by omega), zeroPad_two _ (by omega), Nat.div_div_eq_div_mul]
  simp only [formatRFC3339, rfc3339, hyear, hzone, zeroPad_two _ (show t.month < 100 by omega),
    zeroPad_two _ (show t.day < 100 by omega), zeroPad_two _ (show t.hour < 100 by omega),
    zeroPad_two _ (show t.minute < 100 by omega), zeroPad_two _ (show t.second < 100 by omega)]

/-! ## The claims -/

/-- C1, as stated, fails on a tree with a symbolic link: `linkTree` is read
without error, has no entry inside a `.svn` directory, and holds exactly one
regular file of 3 bytes, yet extraction does not return one entry and 3 bytes
(it returns two entries and 10 bytes, the link being recorded like a file). -/
theorem extract_counts_symlink :
    linkTree.readable = true ∧ linkTree.metadataFree = true ∧
    linkTree.regularCount = 1 ∧ linkTree.regularBytes = 3 ∧
    ¬ ∃ snapshot manifest,
      ExtractSnapshotFromWorkingCopy sampleTime "/wc" (.ok linkTree) (.ok linkTree)
        = .ok (snapshot, manifest) ∧
      snapshot.Files.length = linkTree.regularCount ∧
      manifest.FileCount = linkTree.regularCount ∧
      manifest.TotalBytes = linkTree.regularBytes := by
  refine ⟨by decide, by decide, by decide, by decide, ?_⟩
  rintro ⟨snapshot, manifest, hext, hlen, -, -⟩
  have hval : ExtractSnapshotFromWorkingCopy sampleTime "/wc" (.ok linkTree) (.ok linkTree) =
      .ok (⟨"/wc", [⟨"a.txt", "/wc/a.txt", 3⟩, ⟨"link", "/wc/link", 7⟩]⟩,
        ⟨sampleTime, "/wc", 2, 10⟩) := rfl
  rw [hval] at hext
  simp only [Except.ok.injEq, Prod.mk.injEq] at hext
  rw [← hext.1] at hlen
  revert hlen
  decide

/-- C1, amended: for every source root that is a directory and not a symbolic
link to one (`os.Stat` and `os.Lstat` report the same directory `t`), whose
tree is traversed without I/O error and has no non-directory entry inside a
directory named like `.svn` (the root included), with N non-directory entries
of any kind totalling B < 2^63 bytes, extraction succeeds with exactly N
snapshot entries, FileCount = N and TotalBytes = B; when every non-directory
entry is a regular file, N and B are the number and the bytes of the regular
files. -/
theorem extract_counts (now : Time) (sourceRoot : String) (t : Node)
    (hdir : t.IsDir = true) (hread : t.readable = true) (hmeta : t.metadataFree = true)
    (hbytes : (t.entryBytes : Int) < 2 ^ 63) :
    ∃ snapshot manifest,
      ExtractSnapshotFromWorkingCopy now sourceRoot (.ok t) (.ok t) = .ok (snapshot, manifest) ∧
      snapshot.Files.length = t.entryCount ∧
      manifest.FileCount = t.entryCount ∧
      manifest.TotalBytes = t.entryBytes ∧
      ((∀ e ∈ t.entries, e.1 = Kind.regular) →
        t.entryCount = t.regularCount ∧ t.entryBytes = t.regularBytes) := by
  obtain ⟨h2, hl, ht⟩ := walkDir_count t sourceRoot [] ⟨[], 0⟩ hread hmeta (le_refl _)
    (by simpa using hbytes)
  generalize hw : walkDir walkFn sourceRoot [] t ⟨[], 0⟩ = r at h2 hl ht
  obtain ⟨s, e⟩ := r
  simp only at h2 hl ht
  subst h2
  refine ⟨⟨sourceRoot, s.files⟩, ⟨now, sourceRoot, (s.files.length : Int), s.total⟩, ?_, ?_, ?_, ?_, ?_⟩
  · simp [ExtractSnapshotFromWorkingCopy, hdir, WalkDir, hw]
  · simpa using hl
  · simp only [hl, List.length_nil, zero_add]
  · simpa using ht
  · intro hall
    have hfil : t.entries.filter (fun e => decide (e.1 = Kind.regular)) = t.entries :=
      List.filter_eq_self.2 (fun e he => by simpa using hall e he)
    simp [Node.entryCount, Node.regularCount, Node.entryBytes, Node.regularBytes, hfil]

/-- Witness for C1 (amended): `cleanTree` has two files of 3 and 5 bytes and an
administrative directory without files. -/
theorem extract_counts_witness :
    cleanTree.entryCount = 2 ∧ cleanTree.entryBytes = 8 ∧
    ∃ snapshot manifest,
      ExtractSnapshotFromWorkingCopy sampleTime "/wc" (.ok cleanTree) (.ok cleanTree)
        = .ok (snapshot, manifest) ∧
      snapshot.Files.length = cleanTree.entryCount ∧
      manifest.FileCount = cleanTree.entryCount ∧
      manifest.TotalBytes = cleanTree.entryBytes ∧
      ((∀ e ∈ cleanTree.entries, e.1 = Kind.regular) →
        cleanTree.entryCount = cleanTree.regularCount ∧
        cleanTree.entryBytes = cleanTree.regularBytes) :=
  ⟨by decide, by decide,
    extract_counts sampleTime "/wc" cleanTree (by decide) (by decide) (by decide) (by decide)⟩

/-- C2: whatever lies below a directory named like `.svn` (in any case) has a
path that no entry of the extracted Snapshot carries, and that no file of the
tree committed by a successful Transform of that Snapshot carries either; the
audit file, which Transform writes itself, is the one path not taken from the
Snapshot. `t` is the root as `os.Lstat` reports it, whatever `os.Stat` finds. -/
theorem hidden_not_imported (now : Time) (sourceRoot : String) (stat : Except GoError Node)
    (t : Node) (snapshot : Snapshot)
    (manifest : Manifest) (hnames : t.wellNamed)
    (hext : ExtractSnapshotFromWorkingCopy now sourceRoot stat (.ok t) = .ok (snapshot, manifest))
    (p : List String) (hp : p ∈ t.hidden) :
    joinSlash p ∉ snapshot.Files.map SnapshotFile.RelPath ∧
    ∀ env opts repoPath, (TransformToGitRepo env snapshot opts).1 = .ok repoPath →
      ∀ c ∈ (TransformToGitRepo env snapshot opts).2.commits, ∀ e ∈ c.Tree,
        e.1 ≠ "SVN_IMPORT_MANIFEST.txt" → e.1 ≠ joinSlash p := by
  have hno := extract_not_hidden now sourceRoot stat t snapshot manifest hnames hext p hp
  refine ⟨?_, ?_⟩
  · intro hmem
    obtain ⟨f, hf, hfp⟩ := List.mem_map.1 hmem
    exact hno f hf hfp
  · intro env opts repoPath hok c hc e he hne
    obtain ⟨hcommits, -, -, hidx, -⟩ := transform_ok env snapshot opts repoPath hok
    rw [hcommits] at hc
    simp only [List.mem_singleton] at hc
    subst hc
    rcases hidx e he with ⟨-, h⟩ | ⟨f, hf, hfe⟩
    · exact absurd h hne
    · rw [← hfe]; exact hno f hf

/-- Witness for C2: `.SVN/entries` of `sampleTree` is imported nowhere. -/
theorem hidden_not_imported_witness :
    [".SVN", "entries"] ∈ sampleTree.hidden ∧
    (joinSlash [".SVN", "entries"] ∉ sampleSnapshot.Files.map SnapshotFile.RelPath ∧
    ∀ env opts repoPath, (TransformToGitRepo env sampleSnapshot opts).1 = .ok repoPath →
      ∀ c ∈ (TransformToGitRepo env sampleSnapshot opts).2.commits, ∀ e ∈ c.Tree,
        e.1 ≠ "SVN_IMPORT_MANIFEST.txt" → e.1 ≠ joinSlash [".SVN", "entries"]) :=
  ⟨by decide,
    hidden_not_imported sampleTime "/wc" (.ok sampleTree) sampleTree sampleSnapshot sampleManifest
      (by unfold Node.wellNamed; decide) rfl [".SVN", "entries"] (by decide)⟩

/-- C3, as stated, fails when a source is its own destination: with the work
directory `/tmp/vs` the repository is the source directory `/tmp/vs/repo`;
Transform succeeds, and the one commit holds an empty `a.txt`, not the bytes
1, 2, 3 that the source held (creating the destination truncated it). -/
theorem transform_self_copy :
    selfOptions.Manifest ≠ none ∧
    (TransformToGitRepo selfEnv selfSnapshot selfOptions).1 = .ok "/tmp/vs/repo" ∧
    selfEnv.source (Clean "/tmp/vs/repo/a.txt") = some [1, 2, 3] ∧
    ∃ c, (TransformToGitRepo selfEnv selfSnapshot selfOptions).2.commits = [c] ∧
      ("a.txt", []) ∈ c.Tree ∧
      ¬ (∀ e ∈ c.Tree, e.1 ≠ "SVN_IMPORT_MANIFEST.txt" →
        ∃ f ∈ selfSnapshot.Files, f.RelPath = e.1 ∧
          selfEnv.source (Clean f.SrcPath) = some e.2) := by
  have hmem : (("a.txt", []) : String × Bytes) ∈
      (TransformToGitRepo selfEnv selfSnapshot selfOptions).2.index := by decide
  refine ⟨by decide, rfl, by decide, _,
    (transform_ok selfEnv selfSnapshot selfOptions "/tmp/vs/repo" rfl).1, hmem, ?_⟩
  intro h
  obtain ⟨f, hf, -, hsrc⟩ := h ("a.txt", []) hmem (by decide)
  simp only [selfSnapshot, List.mem_singleton] at hf
  subst hf
  revert hsrc
  decide

/-- C3, amended: for every Snapshot whose RelPaths are clean relative paths
that stay below the repository root and whose sources lie outside the
repository directory and are not among its destinations, after a successful
Transform with a Manifest the repository holds one commit; the paths of its tree are exactly
the RelPaths of the Snapshot together with `SVN_IMPORT_MANIFEST.txt`, which
holds the manifest text, and every other file of the tree holds the bytes that
a SnapshotFile source with that RelPath held before the run. -/
theorem transform_tree (env : StageEnv) (snapshot : Snapshot) (opts : TransformOptions)
    (m : Manifest) (repoPath : String) (hm : opts.Manifest = some m)
    (hok : (TransformToGitRepo env snapshot opts).1 = .ok repoPath)
    (hplain : ∀ f ∈ snapshot.Files, plainRelPath f.RelPath = true)
    (hapart : ∀ workdir, WorkDirIs env opts workdir →
      SourcesApart (Join workdir "repo") snapshot.Files) :
    ∃ c, (TransformToGitRepo env snapshot opts).2.commits = [c] ∧
      c.Tree = (TransformToGitRepo env snapshot opts).2.index ∧
      (∀ p, p ∈ c.Tree.map Prod.fst ↔
        p ∈ snapshot.Files.map SnapshotFile.RelPath ∨ p = "SVN_IMPORT_MANIFEST.txt") ∧
      ("SVN_IMPORT_MANIFEST.txt", (buildManifestText m).toUTF8.data.toList) ∈ c.Tree ∧
      (∀ e ∈ c.Tree, e.1 ≠ "SVN_IMPORT_MANIFEST.txt" →
        ∃ f ∈ snapshot.Files, f.RelPath = e.1 ∧ Clean f.RelPath = e.1 ∧
          env.source (Clean f.SrcPath) = some e.2) := by
  obtain ⟨hcommits, hfiles, hman, hidx, -⟩ := transform_ok env snapshot opts repoPath hok
  have hcontent := transform_content env snapshot opts repoPath hok hapart
  refine ⟨_, hcommits, rfl, ?_, hman m hm, ?_⟩
  · intro p
    constructor
    · intro hp
      obtain ⟨e, he, hep⟩ := List.mem_map.1 hp
      rcases hidx e he with ⟨-, h⟩ | ⟨f, hf, hfe⟩
      · exact Or.inr (by rw [← hep, h])
      · exact Or.inl (List.mem_map.2 ⟨f, hf, by rw [hfe, hep]⟩)
    · rintro (hp | hp)
      · by_cases hpm : p = "SVN_IMPORT_MANIFEST.txt"
        · exact List.mem_map.2 ⟨_, hman m hm, hpm.symm⟩
        · obtain ⟨f, hf, hfp⟩ := List.mem_map.1 hp
          rw [← hfp]
          exact hfiles f hf (Or.inr (by rw [hfp]; exact hpm))
      · exact List.mem_map.2 ⟨_, hman m hm, hp.symm⟩
  · intro e he hne
    obtain ⟨f, hf, hfe, hsrc⟩ := hcontent e he hne
    have hclean : Clean f.RelPath = f.RelPath := by
      have := hplain f hf
      simp only [plainRelPath, Bool.and_eq_true, decide_eq_true_eq] at this
      exact this.1.1.1.1
    exact ⟨f, hf, hfe, by rw [hclean, hfe], hsrc⟩

/-- Witness for C3 (amended): staging `sampleSnapshot`, whose sources lie in
`/wc`, in the temporary directory of `sampleEnv`. -/
theorem transform_tree_witness :
    ∃ c, (TransformToGitRepo sampleEnv sampleSnapshot sampleOptions).2.commits = [c] ∧
      c.Tree = (TransformToGitRepo sampleEnv sampleSnapshot sampleOptions).2.index ∧
      (∀ p, p ∈ c.Tree.map Prod.fst ↔
        p ∈ sampleSnapshot.Files.map SnapshotFile.RelPath ∨ p = "SVN_IMPORT_MANIFEST.txt") ∧
      ("SVN_IMPORT_MANIFEST.txt", (buildManifestText sampleManifest).toUTF8.data.toList) ∈ c.Tree ∧
      (∀ e ∈ c.Tree, e.1 ≠ "SVN_IMPORT_MANIFEST.txt" →
        ∃ f ∈ sampleSnapshot.Files, f.RelPath = e.1 ∧ Clean f.RelPath = e.1 ∧
          sampleEnv.source (Clean f.SrcPath) = some e.2) :=
  transform_tree sampleEnv sampleSnapshot sampleOptions sampleManifest "/tmp/svn2git-1/repo" rfl rfl
    (by decide)
    (by
      intro workdir hwd
      have hw : workdir = "/tmp/svn2git-1" := by
        simp only [WorkDirIs, sampleOptions, sampleEnv, if_true, Except.ok.injEq] at hwd
        exact hwd.symm
      subst hw
      unfold SourcesApart
      decide)

/-- C4: when the copy of some SnapshotFile fails (at its destination in the
work directory, whatever has been staged before), `TransformToGitRepo` returns
an error and the repository has no commit. -/
theorem copy_failure_no_commit (env : StageEnv) (snapshot : Snapshot) (opts : TransformOptions)
    (f : SnapshotFile) (hf : f ∈ snapshot.Files)
    (hcopy : ∀ workdir, WorkDirIs env opts workdir → ∀ repo,
      (copyFileContents env f.SrcPath (Join (Join workdir "repo") f.RelPath) repo).2 ≠ none) :
    (∃ err, (TransformToGitRepo env snapshot opts).1 = .error err) ∧
    (TransformToGitRepo env snapshot opts).2.commits = [] := by
  rcases TransformToGitRepo_cases env snapshot opts with
    ⟨e, he, hc⟩ | ⟨workdir, repo1, repo2, hwd, -, h1, -, -, -⟩
  · exact ⟨⟨e, he⟩, hc⟩
  · have := stageFiles_copy_fails env (Join workdir "repo") snapshot.Files Repository.empty f hf
      (hcopy workdir hwd)
    rw [h1] at this
    exact absurd rfl this

/-- Witness for C4: in `brokenEnv` the second file of `sampleSnapshot` cannot
be opened. -/
theorem copy_failure_no_commit_witness :
    (∃ err, (TransformToGitRepo brokenEnv sampleSnapshot sampleOptions).1 = .error err) ∧
    (TransformToGitRepo brokenEnv sampleSnapshot sampleOptions).2.commits = [] :=
  copy_failure_no_commit brokenEnv sampleSnapshot sampleOptions ⟨"sub/b.txt", "/wc/sub/b.txt", 5⟩
    (by decide) (by intro workdir _ repo; simp [copyFileContents, readFile, brokenEnv])

/-- C5: for a non-nil repository and a non-empty URL whose remote is attached
(created, or already there), exactly one push is made, and the call returns
no error when the push returns nil or `NoErrAlreadyUpToDate`, and the push
error wrapped in `push: ...` for every other outcome. -/
theorem push_outcome (env : LoadEnv) (repo : Repository)
    (remoteURL username password : String) (tlsConfig : Option TLSConfig)
    (hurl : remoteURL ≠ "")
    (hattach : ∀ e, (CreateRemote env repo "origin" [remoteURL]).2 = some e →
      errorsIs e .errRemoteExists = true) :
    ∃ opts, (LoadPushToRemote env (some repo) remoteURL username password tlsConfig).pushes
        = [(opts, tlsConfig)] ∧
      (env.push opts tlsConfig = none →
        (LoadPushToRemote env (some repo) remoteURL username password tlsConfig).err = none) ∧
      (env.push opts tlsConfig = some .noErrAlreadyUpToDate →
        (LoadPushToRemote env (some repo) remoteURL username password tlsConfig).err = none) ∧
      (∀ e, env.push opts tlsConfig = some e → e ≠ .noErrAlreadyUpToDate →
        (LoadPushToRemote env (some repo) remoteURL username password tlsConfig).err
          = some (.wrap "push" e)) := by
  rw [LoadPushToRemote_reaches_push env repo remoteURL username password tlsConfig hurl hattach]
  refine ⟨_, rfl, ?_, ?_, ?_⟩
  · intro h; simp [h, pushVerdict]
  · intro h; simp [h, pushVerdict]
  · intro e h hne; simp [h, hne, pushVerdict]

/-- Witness for C5: a remote that is already up to date, on a repository whose
`origin` exists. -/
theorem push_outcome_witness :
    currentRemote.push ⟨"origin", none⟩ none = some .noErrAlreadyUpToDate ∧
    (LoadPushToRemote currentRemote (some attachedRepo) "https://git.example/r.git" "" "" none).err
      = none := by
  obtain ⟨opts, hp, -, h, -⟩ := push_outcome currentRemote attachedRepo "https://git.example/r.git"
    "" "" none (by decide) (by
      intro e he
      have : e = .errRemoteExists := (Option.some.inj he).symm
      subst this
      decide)
  exact ⟨rfl, h rfl⟩

/-- C6: the push carries basic authentication with exactly the given username
and password if and only if one of them is non-empty, and no authentication
method if and only if both are empty. -/
theorem push_auth (env : LoadEnv) (repo : Repository)
    (remoteURL username password : String) (tlsConfig : Option TLSConfig)
    (hurl : remoteURL ≠ "")
    (hattach : ∀ e, (CreateRemote env repo "origin" [remoteURL]).2 = some e →
      errorsIs e .errRemoteExists = true) :
    ∃ opts, (LoadPushToRemote env (some repo) remoteURL username password tlsConfig).pushes
        = [(opts, tlsConfig)] ∧
      (opts.Auth = some ⟨username, password⟩ ↔ (username ≠ "" ∨ password ≠ "")) ∧
      (opts.Auth = none ↔ (username = "" ∧ password = "")) := by
  rw [LoadPushToRemote_reaches_push env repo remoteURL username password tlsConfig hurl hattach]
  refine ⟨_, rfl, ?_, ?_⟩
  · by_cases h : username ≠ "" ∨ password ≠ "" <;> simp [authFor, h]
  · by_cases h : username ≠ "" ∨ password ≠ ""
    · simp only [authFor, if_pos h]
      constructor
      · intro h'; cases h'
      · rintro ⟨h1, h2⟩; rcases h with h | h
        · exact absurd h1 h
        · exact absurd h2 h
    · simp only [authFor, if_neg h]
      push_neg at h
      simp [h]

/-- Witness for C6: a token without a username is sent as basic
authentication. -/
theorem push_auth_witness :
    ("" ≠ "" ∨ "token" ≠ "") ∧
    ∃ opts, (LoadPushToRemote freshRemote (some Repository.empty) "https://git.example/r.git"
        "" "token" none).pushes = [(opts, none)] ∧
      (opts.Auth = some ⟨"", "token"⟩ ↔ ("" ≠ "" ∨ "token" ≠ "")) ∧
      (opts.Auth = none ↔ ("" = "" ∧ "token" = "")) :=
  ⟨by decide, push_auth freshRemote Repository.empty "https://git.example/r.git" "" "token" none
    (by decide) (by intro e he; cases he)⟩

/-- C7, as stated, fails for a direct Transform call: with an empty author
name in its options `TransformToGitRepo` succeeds and commits under the empty
name; it has no username to fall back to. -/
theorem transform_blank_author :
    blankOptions.Author = "" ∧
    (TransformToGitRepo sampleEnv sampleSnapshot blankOptions).1 = .ok "/tmp/svn2git-1/repo" ∧
    ∃ c, (TransformToGitRepo sampleEnv sampleSnapshot blankOptions).2.commits = [c] ∧
      c.Author.Name = "" :=
  ⟨rfl, rfl, _, (transform_ok sampleEnv sampleSnapshot blankOptions "/tmp/svn2git-1/repo" rfl).1,
    rfl⟩

/-- C7, amended: every commit a run of `main` leaves in the staged repository
carries the author name given on the command line, or the username when that
name is the empty string, so the author name is empty only when the username
is empty too; the committer is the author. -/
theorem commit_author (args : cliArgs) (w : World) (repo : Repository) (c : Commit)
    (hrepo : (main args w).repo = some repo) (hc : c ∈ repo.commits) :
    c.Author.Name = (if args.authorName = "" then args.username else args.authorName) ∧
    (args.username ≠ "" → c.Author.Name ≠ "") ∧
    c.Committer = c.Author := by
  obtain ⟨ha, hcm⟩ := main_commits args w repo c hrepo hc
  refine ⟨by rw [ha], ?_, hcm⟩
  intro hu
  rw [ha]
  by_cases hn : args.authorName = ""
  · simpa [hn] using hu
  · simp [hn]

/-- Witness for C7 (amended): the run of `sampleArgs`, which name no author,
commits as `bob`. -/
theorem commit_author_witness :
    ∃ repo c, (main sampleArgs sampleWorld).repo = some repo ∧ c ∈ repo.commits ∧
      c.Author.Name = "bob" ∧ c.Committer = c.Author := by
  have hT := (transform_ok sampleEnv sampleSnapshot sampleOptions "/tmp/svn2git-1/repo" rfl).1
  have hmem : (⟨"Import from SVN snapshot", ⟨"bob", "", sampleTime⟩, ⟨"bob", "", sampleTime⟩,
      (TransformToGitRepo sampleEnv sampleSnapshot sampleOptions).2.index⟩ : Commit) ∈
      (TransformToGitRepo sampleEnv sampleSnapshot sampleOptions).2.commits := by
    rw [hT]; exact List.mem_singleton.2 rfl
  obtain ⟨h1, -, h3⟩ := commit_author sampleArgs sampleWorld
    (TransformToGitRepo sampleEnv sampleSnapshot sampleOptions).2 _ rfl hmem
  exact ⟨_, _, rfl, hmem, rfl, h3⟩

/-- C8: a run with the dry-run flag in which Extract and Transform succeed
invokes Extract and Transform only, makes no push, exits with status 0, and
leaves the repository exactly as Transform returned it, with no remote
attached. -/
theorem dry_run_skips_load (args : cliArgs) (w : World) (snapshot : Snapshot)
    (manifest : Manifest) (repoPath : String)
    (hsource : args.sourcePath ≠ "") (htarget : args.targetURL ≠ "")
    (hdry : args.dryRun = true)
    (hext : ExtractSnapshotFromWorkingCopy w.now args.sourcePath (w.stat args.sourcePath)
      (w.lstat args.sourcePath) = .ok (snapshot, manifest))
    (htr : (TransformToGitRepo w.stage snapshot
      ⟨args.workdir, if args.authorName = "" then args.username else args.authorName,
        args.authorEmail, args.commitMessage, some manifest⟩).1 = .ok repoPath) :
    (main args w).exit = 0 ∧
    (main args w).stages = [.extract, .transform] ∧
    (main args w).pushes = [] ∧
    (main args w).repo = some (TransformToGitRepo w.stage snapshot
      ⟨args.workdir, if args.authorName = "" then args.username else args.authorName,
        args.authorEmail, args.commitMessage, some manifest⟩).2 ∧
    ∀ repo, (main args w).repo = some repo → repo.remotes = [] := by
  have hu : ¬ (args.sourcePath = "" ∨ args.targetURL = "") := by
    rintro (h | h)
    · exact hsource h
    · exact htarget h
  have hrem := (transform_ok _ _ _ _ htr).2.2.2.2
  unfold main
  rw [if_neg hu]
  by_cases hn : args.authorName = ""
  · simp only [hn, if_true] at htr hrem ⊢
    rw [hext]
    simp only []
    generalize TransformToGitRepo w.stage snapshot _ = T at htr hrem ⊢
    obtain ⟨ret, trepo⟩ := T
    simp only at htr hrem
    subst htr
    simp [hdry, hrem]
  · simp only [hn, if_false] at htr hrem ⊢
    rw [hext]
    simp only []
    generalize TransformToGitRepo w.stage snapshot _ = T at htr hrem ⊢
    obtain ⟨ret, trepo⟩ := T
    simp only at htr hrem
    subst htr
    simp [hdry, hrem]

/-- Witness for C8: the dry run of `sampleArgs`. -/
theorem dry_run_skips_load_witness :
    (main sampleArgs sampleWorld).exit = 0 ∧
    (main sampleArgs sampleWorld).stages = [.extract, .transform] ∧
    (main sampleArgs sampleWorld).pushes = [] ∧
    (main sampleArgs sampleWorld).repo
      = some (TransformToGitRepo sampleEnv sampleSnapshot sampleOptions).2 ∧
    ∀ repo, (main sampleArgs sampleWorld).repo = some repo → repo.remotes = [] :=
  dry_run_skips_load sampleArgs sampleWorld sampleSnapshot sampleManifest "/tmp/svn2git-1/repo"
    (by decide) (by decide) rfl rfl rfl

/-- C9: the manifest text is the title line followed by the lines `Created:`
(what `Format(time.RFC3339)` prints), `SourceRoot:`, `FileCount:` and
`TotalBytes:` (decimal), in this order, each ended by a newline, and nothing
else; for a time that RFC 3339 can express the `Created:` line carries the
RFC 3339 `date-time`, digit by digit. -/
theorem manifest_text (m : Manifest) :
    buildManifestText m =
      "SVN -> GIT IMPORT MANIFEST\n" ++
      ("Created: " ++ formatRFC3339 m.CreatedAt ++ "\n") ++
      ("SourceRoot: " ++ m.SourceRoot ++ "\n") ++
      ("FileCount: " ++ toString m.FileCount ++ "\n") ++
      ("TotalBytes: " ++ toString m.TotalBytes ++ "\n") ∧
    (m.CreatedAt.expressible →
      buildManifestText m =
        "SVN -> GIT IMPORT MANIFEST\n" ++
        ("Created: " ++ rfc3339 m.CreatedAt ++ "\n") ++
        ("SourceRoot: " ++ m.SourceRoot ++ "\n") ++
        ("FileCount: " ++ toString m.FileCount ++ "\n") ++
        ("TotalBytes: " ++ toString m.TotalBytes ++ "\n")) := by
  have htext : buildManifestText m =
      "SVN -> GIT IMPORT MANIFEST\n" ++
      ("Created: " ++ formatRFC3339 m.CreatedAt ++ "\n") ++
      ("SourceRoot: " ++ m.SourceRoot ++ "\n") ++
      ("FileCount: " ++ toString m.FileCount ++ "\n") ++
      ("TotalBytes: " ++ toString m.TotalBytes ++ "\n") := rfl
  refine ⟨htext, fun h => ?_⟩
  rw [htext, formatRFC3339_expressible m.CreatedAt h]

/-- Witness for C9: the manifest of `sampleManifest`, created at 07:08:09 on
5 March 2024, one hour east of UTC. -/
theorem manifest_text_witness :
    buildManifestText sampleManifest =
      "SVN -> GIT IMPORT MANIFEST\nCreated: 2024-03-05T07:08:09+01:00\nSourceRoot: /wc\nFileCount: 2\nTotalBytes: 8\n" :=
  ((manifest_text sampleManifest).2 (by unfold Time.expressible; decide)).trans (by decide)

/-- C10, as stated, fails for a root spelled with a trailing `.`: the
directory `/wc/.Svn`, given as `/wc/.Svn/.`, is reported by `os.Lstat` under
the name `.`, is not skipped, and its file is imported. -/
theorem svn_root_dotted :
    EqualFold (basename (Clean "/wc/.Svn/.")) ".svn" = true ∧
    dottedRoot.Name = basename "/wc/.Svn/." ∧
    ExtractSnapshotFromWorkingCopy sampleTime "/wc/.Svn/." (.ok dottedRoot) (.ok dottedRoot)
      = .ok (⟨"/wc/.Svn/.", [⟨"entries", "/wc/.Svn/entries", 9⟩]⟩,
          ⟨sampleTime, "/wc/.Svn/.", 1, 9⟩) ∧
    ExtractSnapshotFromWorkingCopy sampleTime "/wc/.Svn/." (.ok dottedRoot) (.ok dottedRoot)
      ≠ .ok (⟨"/wc/.Svn/.", []⟩, ⟨sampleTime, "/wc/.Svn/.", 0, 0⟩) := by
  have hval : ExtractSnapshotFromWorkingCopy sampleTime "/wc/.Svn/." (.ok dottedRoot)
      (.ok dottedRoot) = .ok (⟨"/wc/.Svn/.", [⟨"entries", "/wc/.Svn/entries", 9⟩]⟩,
        ⟨sampleTime, "/wc/.Svn/.", 1, 9⟩) := rfl
  refine ⟨by decide, by decide, hval, ?_⟩
  rw [hval]
  intro h
  simp only [Except.ok.injEq, Prod.mk.injEq, Snapshot.mk.injEq] at h
  exact absurd h.1.2 (by decide)

/-- C10, amended: a source root that is a directory, not a symbolic link
(`os.Stat` and `os.Lstat` report the same directory), and whose path as given
ends in an element named like `.svn` (`basename`, the name that `os.Lstat`
reports) yields success with an empty Snapshot, FileCount 0 and TotalBytes 0,
whatever the directory contains. -/
theorem svn_root_is_empty (now : Time) (sourceRoot : String) (children : List Node)
    (readErr : Option GoError) (hname : EqualFold (basename sourceRoot) ".svn" = true) :
    ExtractSnapshotFromWorkingCopy now sourceRoot
        (.ok (.dir (basename sourceRoot) children readErr))
        (.ok (.dir (basename sourceRoot) children readErr))
      = .ok (⟨sourceRoot, []⟩, ⟨now, sourceRoot, 0, 0⟩) := by
  simp [ExtractSnapshotFromWorkingCopy, WalkDir, walkDir, walkFn, Node.IsDir, Node.Name, hname]

/-- Witness for C10 (amended): the root `/wc/.Svn/`, which holds a file. -/
theorem svn_root_is_empty_witness :
    basename "/wc/.Svn/" = ".Svn" ∧
    ExtractSnapshotFromWorkingCopy sampleTime "/wc/.Svn/"
        (.ok (.dir (basename "/wc/.Svn/") [.entry "entries" .regular 9 none] none))
        (.ok (.dir (basename "/wc/.Svn/") [.entry "entries" .regular 9 none] none))
      = .ok (⟨"/wc/.Svn/", []⟩, ⟨sampleTime, "/wc/.Svn/", 0, 0⟩) :=
  ⟨by decide,
    svn_root_is_empty sampleTime "/wc/.Svn/" [.entry "entries" .regular 9 none] none (by decide)⟩

end Svn2Git
